import Mathlib

/-!
Shallow embedding of the upload ingestion and content-addressed storage
pipeline of the file-Storage service (NestJS/TypeScript sources under
`src/`).  Pure functions of the source are translated into Lean functions;
filesystem state is passed explicitly as an association list from paths to
byte contents; external tools (sharp, ffmpeg, ffprobe, node:crypto,
file-type) are abstract function parameters gathered in a `Tools` record.

File names produced by the service always have the shape
`{digest-or-uuid}.{extension}` where the stem contains no dot, so a file
name is embedded as a structured pair (stem, extension); directories are
lists of path segments.
-/

/-- Byte sequences are lists of naturals (each < 256 in reality; only
lengths and equality matter to the claims). -/
abbrev Bytes := List Nat

/-- A file name `stem.fext`, e.g. `⟨sha, "jpg"⟩` for `{sha}.jpg`. -/
structure FName where
  stem : String
  fext : String
deriving DecidableEq

/-- An absolute file path: directory segments plus the file name. -/
abbrev FsPath := List String × FName

/-- The filesystem: an association list of files and their contents.
List order stands in for the enumeration order of directory globbing. -/
abbrev FS := List (FsPath × Bytes)

def FS.lookup (fs : FS) (p : FsPath) : Option Bytes :=
  (List.find? (fun e => decide (e.1 = p)) fs).map (fun e => e.2)

def FS.lookupD (fs : FS) (p : FsPath) : Bytes :=
  (fs.lookup p).getD []

/-- Writing a file: models `fs.writeFile` / `fs.copyFile` destination. -/
def FS.write (fs : FS) (p : FsPath) (b : Bytes) : FS :=
  (p, b) :: fs.filter (fun e => decide (¬ e.1 = p))

/-- Removing a file: models `fs.unlink` (best-effort, missing file ignored). -/
def FS.unlink (fs : FS) (p : FsPath) : FS :=
  fs.filter (fun e => decide (¬ e.1 = p))

/-- Existence check: models `fs.access` succeeding. -/
def FS.existsFile (fs : FS) (p : FsPath) : Bool :=
  (fs.lookup p).isSome

theorem FS.lookup_write_self (fs : FS) (p : FsPath) (b : Bytes) :
    (fs.write p b).lookup p = some b := by
  simp [FS.write, FS.lookup, List.find?]

theorem findqCons {α : Type} (p : α → Bool) (a : α) (l : List α) (h : p a = true) :
    List.find? p (a :: l) = some a := by
  simp [List.find?, h]

theorem findqConsNo {α : Type} (p : α → Bool) (a : α) (l : List α) (h : p a = false) :
    List.find? p (a :: l) = List.find? p l := by
  simp [List.find?, h]

theorem filterCons {α : Type} (p : α → Bool) (a : α) (l : List α) (h : p a = true) :
    List.filter p (a :: l) = a :: List.filter p l := by
  simp [List.filter, h]

theorem filterConsNo {α : Type} (p : α → Bool) (a : α) (l : List α) (h : p a = false) :
    List.filter p (a :: l) = List.filter p l := by
  simp [List.filter, h]

theorem FS.find?_filter_ne (fs : FS) (p : FsPath) (q : FsPath) (h : q ≠ p) :
    List.find? (fun e => decide (e.1 = q)) (fs.filter (fun e => decide (¬ e.1 = p)))
      = List.find? (fun e => decide (e.1 = q)) fs := by
  induction fs with
  | nil => rfl
  | cons a rest ih =>
    by_cases hap : a.1 = p
    · rw [filterConsNo (fun e => decide (¬ e.1 = p)) a rest (by simp [hap]), ih,
        findqConsNo (fun e => decide (e.1 = q)) a rest (by simp [hap, Ne.symm h])]
    · rw [filterCons (fun e => decide (¬ e.1 = p)) a rest (by simp [hap])]
      by_cases haq : a.1 = q
      · rw [findqCons (fun e => decide (e.1 = q)) a _ (by simp [haq]),
          findqCons (fun e => decide (e.1 = q)) a rest (by simp [haq])]
      · rw [findqConsNo (fun e => decide (e.1 = q)) a _ (by simp [haq]),
          findqConsNo (fun e => decide (e.1 = q)) a rest (by simp [haq]), ih]

theorem FS.lookup_write_ne (fs : FS) (p : FsPath) (b : Bytes) (q : FsPath) (h : q ≠ p) :
    (fs.write p b).lookup q = fs.lookup q := by
  have hq : decide ((p, b).1 = q) = false := by
    simp; intro hqq; exact h hqq.symm
  simp only [FS.write, FS.lookup, List.find?, hq]
  rw [FS.find?_filter_ne fs p q h]

theorem FS.lookup_unlink_self (fs : FS) (p : FsPath) :
    (fs.unlink p).lookup p = none := by
  induction fs with
  | nil => rfl
  | cons a rest ih =>
    by_cases hap : a.1 = p
    · unfold FS.unlink FS.lookup at ih ⊢
      rw [filterConsNo (fun e => decide (¬ e.1 = p)) a rest (by simp [hap])]
      exact ih
    · unfold FS.unlink FS.lookup at ih ⊢
      rw [filterCons (fun e => decide (¬ e.1 = p)) a rest (by simp [hap]),
        findqConsNo (fun e => decide (e.1 = p)) a _ (by simp [hap])]
      exact ih

theorem FS.lookup_unlink_ne (fs : FS) (p : FsPath) (q : FsPath) (h : q ≠ p) :
    (fs.unlink p).lookup q = fs.lookup q := by
  simp only [FS.unlink, FS.lookup]
  rw [FS.find?_filter_ne fs p q h]

theorem FS.existsFile_write_of (fs : FS) (p : FsPath) (b : Bytes) (q : FsPath)
    (h : fs.existsFile q = true) : (fs.write p b).existsFile q = true := by
  by_cases hq : q = p
  · subst hq; simp [FS.existsFile, FS.lookup_write_self]
  · rwa [FS.existsFile, FS.lookup_write_ne fs p b q hq]

/-- Segment-level directory prefix test: `dirUnder root d` holds when `d`
lies inside `root` (any depth, including zero). This models the `**/`
part of the fast-glob patterns and `path.relative` being well defined. -/
def dirUnder : List String → List String → Bool
  | [], _ => true
  | _ :: _, [] => false
  | a :: as, b :: bs => a == b && dirUnder as bs

theorem dirUnder_append_self (d r : List String) : dirUnder d (d ++ r) = true := by
  induction d with
  | nil => rfl
  | cons a as ih => simp [dirUnder, ih]

theorem dirUnder_iff (d p : List String) :
    dirUnder d p = true ↔ ∃ r, p = d ++ r := by
  constructor
  · intro h
    induction d generalizing p with
    | nil => exact ⟨p, rfl⟩
    | cons a as ih =>
      match p with
      | [] => simp [dirUnder] at h
      | b :: bs =>
        simp only [dirUnder, Bool.and_eq_true, beq_iff_eq] at h
        obtain ⟨rfl, h2⟩ := h
        obtain ⟨r, hr⟩ := ih bs h2
        exact ⟨r, by simp [hr]⟩
  · rintro ⟨r, rfl⟩
    exact dirUnder_append_self d r

theorem dropLenAppend (d r : List String) : (d ++ r).drop d.length = r := by
  induction d with
  | nil => rfl
  | cons a as ih => exact ih

theorem appendRightCancel (a b c : List String) (h : a ++ c = b ++ c) : a = b := by
  have hl : a.length = b.length := by
    have := congrArg List.length h
    simp [List.length_append] at this
    omega
  have ha : a = (a ++ c).take a.length := by simp
  have hb : b = (b ++ c).take b.length := by simp
  rw [ha, hb, h, hl]

/-- POSIX-style join with `/`, modelling `path.posix.join` on nonempty
segment lists. -/
def joinPosix : List String → String
  | [] => ""
  | [s] => s
  | s :: t :: rest => s ++ "/" ++ joinPosix (t :: rest)

theorem strAppendAssoc (a b c : String) : a ++ b ++ c = a ++ (b ++ c) := by
  cases a with
  | mk da =>
    cases b with
    | mk db =>
      cases c with
      | mk dc =>
        show String.append (String.append ⟨da⟩ ⟨db⟩) ⟨dc⟩
            = String.append ⟨da⟩ (String.append ⟨db⟩ ⟨dc⟩)
        simp [String.append, List.append_assoc]

/-!
Configuration, claims, dates and error taxonomy.
-/

/-- Media kind of an upload claim (`MediaKind` in `upload-token.type.ts`). -/
inductive MediaKind
  | image
  | video
deriving DecidableEq

/-- The configuration slice used by the core (`AppConfigService`). -/
structure Config where
  tmpDir : List String
  originalsDir : List String
  thumbsDir : List String
  maxUploadBytes : Nat
  allowedImageMime : List String
  allowedVideoMime : List String
  thumbImageMax : Nat
  thumbVideoWidth : Nat

/-- The verified upload claim (`UploadTokenPayload`), as used by
`handleUpload`: `maxSize` and `maxVideoSec` are optional. -/
structure UploadToken where
  sub : String
  kind : MediaKind
  maxSize : Option Nat
  maxVideoSec : Option Nat

/-- A UTC calendar date; `month` and `day` are the human 1-based values
(the source uses `getUTCMonth() + 1` and `getUTCDate`). -/
structure UtcDate where
  year : Nat
  month : Nat
  day : Nat

/-- Error taxonomy of the pipeline: the Nest exception classes thrown by
the source (`BadRequestException`, `PayloadTooLargeException`,
`UnsupportedMediaTypeException`, `NotFoundException`, generic `Error`). -/
inductive AppErr
  | badRequest
  | payloadTooLarge
  | unsupportedMediaType
  | notFound
  | internalErr
deriving DecidableEq

/-- String pad to width 2 with zeros, modelling `padStart(2, '0')`. -/
def padStart2 (s : String) : String :=
  if 2 ≤ s.length then s else if s.length = 1 then "0" ++ s else "00" ++ s

/-- Date bucket segments `{yyyy}/{mm}/{dd}` (`MediaService.buildDatePath`). -/
def buildDatePath (d : UtcDate) : List String :=
  [toString d.year, padStart2 (toString d.month), padStart2 (toString d.day)]

/-!
Hash utility (`src/media/utils/hash.util.ts`).  `createHash('sha256')` from
`node:crypto` is external code; it is embedded as an incremental
accumulator whose final digest is `H(accumulated bytes)` for an arbitrary
digest function `H` (the hex-encoded SHA-256 in reality).  `hashBuffer`
feeds the whole buffer in one `update`; `hashFile` folds `update` over the
chunks delivered by `createReadStream` while summing their lengths.
-/

/-- State of an incremental `createHash` object: the bytes fed so far. -/
structure HashState where
  acc : Bytes

def HashState.update (st : HashState) (chunk : Bytes) : HashState :=
  ⟨st.acc ++ chunk⟩

def HashState.digest (H : Bytes → String) (st : HashState) : String :=
  H st.acc

/-- Embeds `hashBuffer`: one `update` with the whole buffer, then digest. -/
def hashBuffer (H : Bytes → String) (buffer : Bytes) : String :=
  (HashState.update ⟨[]⟩ buffer).digest H

/-- Embeds `hashFile` on a file whose read stream yields `chunks`:
per-chunk `totalBytes += chunk.length; hash.update(chunk)`, then digest. -/
def hashFile (H : Bytes → String) (chunks : List Bytes) : String × Nat :=
  let fin := chunks.foldl
    (fun (p : HashState × Nat) c => (p.1.update c, p.2 + c.length)) (⟨[]⟩, 0)
  (fin.1.digest H, fin.2)

/-!
Path allocator (`MediaService`).
-/

/-- Result record of `resolvePathsForSha` (`MediaPathsResult`). -/
structure MediaPathsResult where
  originalPath : FsPath
  thumbPath : FsPath
  originalKey : String
  thumbKey : String
  isNew : Bool
  relativeDir : String
deriving DecidableEq

def fnameStr (fn : FName) : String := fn.stem ++ "." ++ fn.fext

/-- Embeds `buildStorageKey`: `path.posix.join(prefixTag, relativeSegs)`
where the relative path of the file under its root is its directory
segments followed by the file name. -/
def buildKey (prefixTag : String) (segs : List String) (fn : FName) : String :=
  joinPosix (prefixTag :: (segs ++ [fnameStr fn]))

/-- ASCII lowercasing as used by `toLowerCase` on extension strings
(written over the character list so that it evaluates in the kernel). -/
def lowerStr (s : String) : String := ⟨s.data.map Char.toLower⟩

/-- Matching predicate of the glob `**/{sha}.{ext}` run under the
originals root (`findExistingOriginal`). -/
def origMatch (cfg : Config) (sha ext : String) (e : FsPath × Bytes) : Bool :=
  dirUnder cfg.originalsDir e.1.1 && e.1.2.stem == sha && e.1.2.fext == ext

/-- Embeds `findExistingOriginal`: first glob match of `**/{sha}.{ext}`
under the originals root, as an absolute path. -/
def findExistingOriginal (fs : FS) (cfg : Config) (sha ext : String) : Option FsPath :=
  (List.find? (origMatch cfg sha ext) fs).map (fun e => e.1)

/-- Matching predicate of the glob `**/{sha}.*` (`findOriginalBySha`). -/
def shaMatch (cfg : Config) (sha : String) (e : FsPath × Bytes) : Bool :=
  dirUnder cfg.originalsDir e.1.1 && e.1.2.stem == sha

/-- Embeds `findOriginalBySha`: first glob match of `**/{sha}.*` under the
originals root, giving its absolute path and lowercased extension. -/
def findOriginalBySha (fs : FS) (cfg : Config) (sha : String) :
    Option (FsPath × String) :=
  (List.find? (shaMatch cfg sha) fs).map (fun e => (e.1, lowerStr e.1.2.fext))

/-- Embeds `deriveThumbPathFromOriginal`: mirror the original's relative
directory under the thumbs root, with the digest stem and `.jpg`. -/
def deriveThumbPathFromOriginal (cfg : Config) (originalPath : FsPath) : FsPath :=
  let relSegs := originalPath.1.drop cfg.originalsDir.length
  (cfg.thumbsDir ++ relSegs, ⟨originalPath.2.stem, "jpg"⟩)

/-- Models `path.dirname` of a relative path given as segments: node
returns `"."` for a file with no directory part. -/
def relDirString (segs : List String) : String :=
  match segs with
  | [] => "."
  | _ => joinPosix segs

/-- Embeds `resolvePathsForSha`: locate an existing original anywhere
under the originals root, else allocate today's date bucket.  Directory
creation (`mkdir -p`) does not change the file map and is dropped. -/
def resolvePathsForSha (fs : FS) (cfg : Config) (today : UtcDate)
    (sha ext : String) : MediaPathsResult :=
  match findExistingOriginal fs cfg sha ext with
  | some existing =>
    let relSegs := existing.1.drop cfg.originalsDir.length
    let thumbPath := deriveThumbPathFromOriginal cfg existing
    { originalPath := existing
      thumbPath := thumbPath
      originalKey := buildKey "o" relSegs existing.2
      thumbKey := buildKey "t" relSegs ⟨existing.2.stem, "jpg"⟩
      isNew := false
      relativeDir := relDirString relSegs }
  | none =>
    let datePath := buildDatePath today
    { originalPath := (cfg.originalsDir ++ datePath, ⟨sha, ext⟩)
      thumbPath := (cfg.thumbsDir ++ datePath, ⟨sha, "jpg"⟩)
      originalKey := buildKey "o" datePath ⟨sha, ext⟩
      thumbKey := buildKey "t" datePath ⟨sha, "jpg"⟩
      isNew := true
      relativeDir := joinPosix datePath }

/-- Embeds `extensionToKind` (throwing case as `none`). -/
def extensionToKind (ext : String) : Option MediaKind :=
  let lower := lowerStr ext
  if lower = "jpg" ∨ lower = "jpeg" ∨ lower = "png" ∨ lower = "webp" then
    some MediaKind.image
  else if lower = "mp4" ∨ lower = "mov" then some MediaKind.video
  else none

/-- Embeds `extensionToMime` (throwing case as `none`). -/
def extensionToMime (ext : String) : Option String :=
  let lower := lowerStr ext
  if lower = "jpg" ∨ lower = "jpeg" then some "image/jpeg"
  else if lower = "png" then some "image/png"
  else if lower = "webp" then some "image/webp"
  else if lower = "mp4" then some "video/mp4"
  else if lower = "mov" then some "video/quicktime"
  else none

/-!
External tools.  sharp, ffmpeg, ffprobe and the `file-type` sniffer are
separate binaries/libraries outside `src/`; each is embedded as an
abstract function so that theorems quantify over their behaviour.
-/

/-- Result of `fileTypeFromBuffer` (`file-type`). -/
structure SniffResult where
  mime : String
  sext : String
deriving DecidableEq

/-- Dimensions reported by a sharp encode / `sharp().metadata()`. -/
structure ImgInfo where
  iwidth : Option Nat
  iheight : Option Nat
deriving DecidableEq

/-- Result of an ffprobe run (duration from `format.duration`, dimensions
from the first video stream); every field may be missing. -/
structure ProbeResult where
  durationSec : Option Rat
  pwidth : Option Nat
  pheight : Option Nat

/-- The external tools as abstract deterministic functions of the input
bytes.  `none` results model the tool failing (non-zero exit / undetected
type / sharp error). -/
structure Tools where
  hashHex : Bytes → String
  detect : Bytes → Option SniffResult
  sharpEnc : Bytes → String → Option (Bytes × ImgInfo)
  sharpThumb : Bytes → Nat → Bytes
  imageMeta : Bytes → ImgInfo
  probe : Bytes → ProbeResult
  ffmpegRemux : Bytes → Option Bytes
  ffmpegReenc : Bytes → Option Bytes
  ffmpegFrame : Bytes → Nat → Option Bytes

/-- Observable side effects of one request, for claims about which tool
invocations and file writes happen. -/
inductive Ev
  | ffprobeEv
  | ffmpegRemuxEv
  | ffmpegReencEv
  | ffmpegFrameEv
  | writeEv (p : FsPath)
  | unlinkEv (p : FsPath)
deriving DecidableEq

/-- Outcome of a service call: result or error, the filesystem after the
call, and the trace of effects. -/
structure StepOut (α : Type) where
  res : Except AppErr α
  fs : FS
  evs : List Ev

/-- JavaScript `Math.round` on the rationals that model JS numbers. -/
def jsRound (q : Rat) : Int := Int.floor (q + 1/2)

/-!
Image normalizer (`ImageService`).
-/

structure ImageProcessResult where
  sha : String
  bytes : Nat
  mime : String
  iext : String
  width : Nat
  height : Nat
  paths : MediaPathsResult
deriving DecidableEq

structure ImageInput where
  tmpPath : FsPath
  iext : String
  mime : String

/-- Embeds `ImageService.normalizeExt` (throwing case as `none`). -/
def normalizeImgExt (ext : String) : Option String :=
  let lower := lowerStr ext
  if lower = "jpg" ∨ lower = "jpeg" then some "jpg"
  else if lower = "png" then some "png"
  else if lower = "webp" then some "webp"
  else none

/-- Embeds `ImageService.extToMime` (callers only pass normalized
extensions, so the throwing default collapses to an unused `""`). -/
def imgExtToMime (ext : String) : String :=
  if ext = "jpg" then "image/jpeg"
  else if ext = "png" then "image/png"
  else if ext = "webp" then "image/webp"
  else ""

/-- Continuation of `processImage` after the sharp re-encode produced the
bytes `data` and dimensions `info`: hash, resolve paths, write the
original if new, generate the thumbnail only when absent. -/
def imageAfterNormalize (E : Tools) (cfg : Config) (today : UtcDate) (fs : FS)
    (nExt : String) (data : Bytes) (info : ImgInfo) : StepOut ImageProcessResult :=
  let sha := E.hashHex data
  let paths := resolvePathsForSha fs cfg today sha nExt
  let fs1 := if paths.isNew then fs.write paths.originalPath data else fs
  let evs1 := if paths.isNew then [Ev.writeEv paths.originalPath] else []
  let bytes := if paths.isNew then data.length
    else (fs1.lookupD paths.originalPath).length
  let genThumb := !(fs1.existsFile paths.thumbPath)
  let fs2 := if genThumb then
    fs1.write paths.thumbPath (E.sharpThumb data cfg.thumbImageMax) else fs1
  let evs2 := evs1 ++ (if genThumb then [Ev.writeEv paths.thumbPath] else [])
  ⟨.ok { sha := sha, bytes := bytes, mime := imgExtToMime nExt, iext := nExt,
         width := info.iwidth.getD 0, height := info.iheight.getD 0,
         paths := paths }, fs2, evs2⟩

/-- Embeds `ImageService.processImage`: normalize via sharp (extension
validation, re-encode), then persist via `imageAfterNormalize`. -/
def processImage (E : Tools) (cfg : Config) (today : UtcDate) (fs : FS)
    (inp : ImageInput) : StepOut ImageProcessResult :=
  match normalizeImgExt inp.iext with
  | none => ⟨.error .unsupportedMediaType, fs, []⟩
  | some nExt =>
    match E.sharpEnc (fs.lookupD inp.tmpPath) nExt with
    | none => ⟨.error .internalErr, fs, []⟩
    | some (data, info) => imageAfterNormalize E cfg today fs nExt data info

/-!
Video normalizer (`VideoService`).
-/

structure VideoProcessResult where
  sha : String
  bytes : Nat
  mime : String
  vext : String
  width : Nat
  height : Nat
  durationMs : Int
  paths : MediaPathsResult
deriving DecidableEq

structure VideoInput where
  tmpPath : FsPath
  vext : String
  mime : String
  maxDurationSec : Rat
  tmpOutName : String

/-- Embeds `VideoService.normalizeExt` (throwing case as `none`). -/
def normalizeVidExt (ext : String) : Option String :=
  let lower := lowerStr ext
  if lower = "mp4" then some "mp4"
  else if lower = "mov" then some "mov"
  else none

/-- Embeds `VideoService.extToMime` on normalized extensions. -/
def vidExtToMime (ext : String) : String :=
  if ext = "mp4" then "video/mp4"
  else if ext = "mov" then "video/quicktime"
  else ""

/-- Continuation of `processVideo` after `stripMetadata` produced the
normalized bytes `b` in the temporary output file `tmpOut`: hash, resolve
paths, copy if new, generate the thumbnail frame only when absent, remove
the temporary output, build the result. -/
def videoAfterStrip (E : Tools) (cfg : Config) (fs : FS) (evs : List Ev)
    (today : UtcDate) (nExt : String) (tmpOut : FsPath) (b : Bytes)
    (durationSec : Rat) (pr : ProbeResult) : StepOut VideoProcessResult :=
  let sha := E.hashHex b
  let hbytes := b.length
  let paths := resolvePathsForSha fs cfg today sha nExt
  let fs1 := if paths.isNew then fs.write paths.originalPath b else fs
  let evs1 := evs ++ (if paths.isNew then [Ev.writeEv paths.originalPath] else [])
  if !(fs1.existsFile paths.thumbPath) then
    match E.ffmpegFrame (fs1.lookupD paths.originalPath) cfg.thumbVideoWidth with
    | none => ⟨.error .internalErr, fs1, evs1 ++ [Ev.ffmpegFrameEv]⟩
    | some frame =>
      let fs2 := fs1.write paths.thumbPath frame
      let evs2 := evs1 ++ [Ev.ffmpegFrameEv, Ev.writeEv paths.thumbPath]
      let fs3 := fs2.unlink tmpOut
      let bytes := if paths.isNew then hbytes else (fs3.lookupD paths.originalPath).length
      ⟨.ok { sha := sha, bytes := bytes, mime := vidExtToMime nExt, vext := nExt,
             width := pr.pwidth.getD 0, height := pr.pheight.getD 0,
             durationMs := jsRound (durationSec * 1000), paths := paths },
        fs3, evs2 ++ [Ev.unlinkEv tmpOut]⟩
  else
    let fs3 := fs1.unlink tmpOut
    let bytes := if paths.isNew then hbytes else (fs3.lookupD paths.originalPath).length
    ⟨.ok { sha := sha, bytes := bytes, mime := vidExtToMime nExt, vext := nExt,
           width := pr.pwidth.getD 0, height := pr.pheight.getD 0,
           durationMs := jsRound (durationSec * 1000), paths := paths },
      fs3, evs1 ++ [Ev.unlinkEv tmpOut]⟩

/-- Embeds `VideoService.processVideo`: probe, duration ceiling check
before any ffmpeg work, extension validation, metadata strip with
re-encode fallback, then the common persist/thumbnail/cleanup path. -/
def processVideo (E : Tools) (cfg : Config) (today : UtcDate) (fs : FS)
    (inp : VideoInput) : StepOut VideoProcessResult :=
  let content := fs.lookupD inp.tmpPath
  let pr := E.probe content
  let durationSec := pr.durationSec.getD 0
  if durationSec > inp.maxDurationSec then
    ⟨.error .payloadTooLarge, fs, [Ev.ffprobeEv]⟩
  else
    match normalizeVidExt inp.vext with
    | none => ⟨.error .unsupportedMediaType, fs, [Ev.ffprobeEv]⟩
    | some nExt =>
      let tmpOut : FsPath := (inp.tmpPath.1, ⟨inp.tmpOutName, nExt⟩)
      match E.ffmpegRemux content with
      | some b =>
        videoAfterStrip E cfg (fs.write tmpOut b)
          [Ev.ffprobeEv, Ev.ffmpegRemuxEv, Ev.writeEv tmpOut]
          today nExt tmpOut b durationSec pr
      | none =>
        match E.ffmpegReenc content with
        | none =>
          ⟨.error .internalErr, fs.unlink tmpOut,
            [Ev.ffprobeEv, Ev.ffmpegRemuxEv, Ev.unlinkEv tmpOut, Ev.ffmpegReencEv]⟩
        | some b =>
          videoAfterStrip E cfg ((fs.unlink tmpOut).write tmpOut b)
            [Ev.ffprobeEv, Ev.ffmpegRemuxEv, Ev.unlinkEv tmpOut,
              Ev.ffmpegReencEv, Ev.writeEv tmpOut]
            today nExt tmpOut b durationSec pr

/-!
Ingestion orchestrator (`UploadService`).
-/

/-- Sniff buffer capacity (`SNIFF_LENGTH` in `upload.service.ts`). -/
def snLen : Nat := 4100

/-- State of the size-counting / sniff-tapping `Transform` stream. -/
structure TapState where
  sniff : Bytes
  sniffBytes : Nat
  totalBytes : Nat
  written : List Bytes

/-- Embeds the `tapStream` transform: per chunk, tap the first
`SNIFF_LENGTH` bytes into the sniff buffer, count cumulative bytes, and
fail with payload-too-large once the running total exceeds the limit (the
failing chunk is not forwarded to the file write stream).  Returns the
final state and whether the transform errored. -/
def tapRun (limit : Nat) : TapState → List Bytes → TapState × Bool
  | st, [] => (st, false)
  | st, c :: rest =>
    let st1 := if st.sniffBytes < snLen then
        { st with sniff := st.sniff ++ c.take (snLen - st.sniffBytes),
                  sniffBytes := st.sniffBytes + min c.length (snLen - st.sniffBytes) }
      else st
    if st1.totalBytes + c.length > limit then
      ({ st1 with totalBytes := st1.totalBytes + c.length }, true)
    else
      tapRun limit { st1 with totalBytes := st1.totalBytes + c.length,
                              written := st1.written ++ [c] } rest

/-- Embeds the busboy `fileSize` limit: the file stream delivers at most
`limit` bytes (a crossing chunk is truncated and nothing further is
delivered) and the `limit` event fires when the source had more. -/
def busboyDeliver (limit : Nat) : List Bytes → List Bytes × Bool
  | [] => ([], false)
  | c :: rest =>
    if c.length ≤ limit then
      let r := busboyDeliver (limit - c.length) rest
      (c :: r.1, r.2)
    else ([c.take limit], true)

/-- Effective byte ceiling of `handleUpload`:
`Math.min(config.maxUploadBytes, token.maxSize ?? config.maxUploadBytes)`. -/
def effectiveLimit (cfg : Config) (token : UploadToken) : Nat :=
  min cfg.maxUploadBytes (token.maxSize.getD cfg.maxUploadBytes)

/-- Embeds `assertMimeAllowed`'s decision: is the detected MIME in the
allow-list configured for the claim kind? -/
def mimeAllowed (cfg : Config) (kind : MediaKind) (mime : String) : Bool :=
  match kind with
  | .image => cfg.allowedImageMime.contains mime
  | .video => cfg.allowedVideoMime.contains mime

/-- `UploadResponseDto`. -/
structure UploadResponse where
  mediaId : String
  ownerId : String
  kind : MediaKind
  mime : String
  bytes : Nat
  width : Nat
  height : Nat
  durationMs : Option Int
  storageKeyOriginal : String
  storageKeyThumb : String
  sha256 : String
  status : String
deriving DecidableEq

/-- `UploadProcessingResult`: the response plus the logging metadata. -/
structure UploadProcessingResult where
  response : UploadResponse
  metaSha : String
  metaWidth : Nat
  metaHeight : Nat
  metaDurationMs : Option Int
  deduped : Bool
deriving DecidableEq

/-- Outcome of `processIncomingFile`: result or error, final filesystem,
effect trace, and structured-log code lines. -/
structure OrchOut where
  res : Except AppErr UploadProcessingResult
  fs : FS
  evs : List Ev
  log : List String

def imageUploadResult (mediaId : String) (token : UploadToken)
    (r : ImageProcessResult) : UploadProcessingResult :=
  { response := { mediaId := mediaId, ownerId := token.sub, kind := .image,
                  mime := r.mime, bytes := r.bytes, width := r.width,
                  height := r.height, durationMs := none,
                  storageKeyOriginal := r.paths.originalKey,
                  storageKeyThumb := r.paths.thumbKey, sha256 := r.sha,
                  status := "ready" }
    metaSha := r.sha, metaWidth := r.width, metaHeight := r.height,
    metaDurationMs := none, deduped := !r.paths.isNew }

def videoUploadResult (mediaId : String) (token : UploadToken)
    (r : VideoProcessResult) : UploadProcessingResult :=
  { response := { mediaId := mediaId, ownerId := token.sub, kind := .video,
                  mime := r.mime, bytes := r.bytes, width := r.width,
                  height := r.height, durationMs := some r.durationMs,
                  storageKeyOriginal := r.paths.originalKey,
                  storageKeyThumb := r.paths.thumbKey, sha256 := r.sha,
                  status := "ready" }
    metaSha := r.sha, metaWidth := r.width, metaHeight := r.height,
    metaDurationMs := some r.durationMs, deduped := !r.paths.isNew }

/-- Core of `processIncomingFile`, everything except the request logger
(the client-supplied filename reaches only the logger in the source, so it
is not a parameter here).  `chunks` is the raw file field content as
emitted by the transport, `streamErr` models the source stream failing
mid-flight, `tmpName`/`tmpOutName`/`mediaId` stand for the generated
`randomUUID()` names. -/
def processCore (E : Tools) (cfg : Config) (today : UtcDate) (fs : FS)
    (chunks : List Bytes) (token : UploadToken) (hardLimit : Nat)
    (tmpName tmpOutName mediaId : String) (streamErr : Bool) :
    Except AppErr UploadProcessingResult × FS × List Ev :=
  let tmpPath : FsPath := (cfg.tmpDir, ⟨tmpName, "tmp"⟩)
  let bd := busboyDeliver hardLimit chunks
  let tap := tapRun hardLimit ⟨[], 0, 0, []⟩ bd.1
  let st := tap.1
  let fsW := fs.write tmpPath st.written.flatten
  if tap.2 then
    (.error .payloadTooLarge, fsW.unlink tmpPath,
      [Ev.writeEv tmpPath, Ev.unlinkEv tmpPath])
  else if streamErr then
    (.error .badRequest, fsW.unlink tmpPath,
      [Ev.writeEv tmpPath, Ev.unlinkEv tmpPath])
  else if bd.2 then
    (.error .payloadTooLarge, fsW.unlink tmpPath,
      [Ev.writeEv tmpPath, Ev.unlinkEv tmpPath])
  else if st.totalBytes = 0 then
    (.error .badRequest, fsW.unlink tmpPath,
      [Ev.writeEv tmpPath, Ev.unlinkEv tmpPath])
  else
    match E.detect st.sniff with
    | none =>
      (.error .unsupportedMediaType, fsW.unlink tmpPath,
        [Ev.writeEv tmpPath, Ev.unlinkEv tmpPath])
    | some det =>
      if !(mimeAllowed cfg token.kind det.mime) then
        -- In the source this throw happens before the try/finally that
        -- unlinks the temp file, so the temp file stays on disk here.
        (.error .unsupportedMediaType, fsW, [Ev.writeEv tmpPath])
      else
        match token.kind with
        | .image =>
          let out := processImage E cfg today fsW ⟨tmpPath, det.sext, det.mime⟩
          let fsF := out.fs.unlink tmpPath
          let evs := Ev.writeEv tmpPath :: out.evs ++ [Ev.unlinkEv tmpPath]
          match out.res with
          | .error e => (.error e, fsF, evs)
          | .ok r => (.ok (imageUploadResult mediaId token r), fsF, evs)
        | .video =>
          let maxSec : Rat := ((token.maxVideoSec.getD 60 : Nat) : Rat)
          let out := processVideo E cfg today fsW
            ⟨tmpPath, det.sext, det.mime, maxSec, tmpOutName⟩
          let fsF := out.fs.unlink tmpPath
          let evs := Ev.writeEv tmpPath :: out.evs ++ [Ev.unlinkEv tmpPath]
          match out.res with
          | .error e => (.error e, fsF, evs)
          | .ok r => (.ok (videoUploadResult mediaId token r), fsF, evs)

/-- Embeds `processIncomingFile`.  The client-supplied `filename` is used
by the source only in the initial debug log line, mirrored here. -/
def processIncomingFile (E : Tools) (cfg : Config) (today : UtcDate) (fs : FS)
    (chunks : List Bytes) (filename : String) (token : UploadToken)
    (hardLimit : Nat) (tmpName tmpOutName mediaId : String)
    (streamErr : Bool) : OrchOut :=
  let core := processCore E cfg today fs chunks token hardLimit
    tmpName tmpOutName mediaId streamErr
  { res := core.1, fs := core.2.1, evs := core.2.2,
    log := ["upload.stream.start " ++ filename] }

/-!
Metadata read model (`MediaService.getMetadataBySha`).
-/

/-- `MediaMetadataDto`. -/
structure MediaMetadataDto where
  sha256 : String
  kind : MediaKind
  mime : String
  bytes : Nat
  width : Option Nat
  height : Option Nat
  durationMs : Option Int
  storageKeyOriginal : String
  storageKeyThumb : String
  createdAt : Option (Nat × Nat × Nat)
deriving DecidableEq

/-- Embeds `extractCreatedAt`: read the `{yyyy}/{mm}/{dd}` bucket of the
file's relative path (which has the directory segments plus the file
name, hence the source's `length < 4` guard). -/
def extractCreatedAt (cfg : Config) (p : FsPath) : Option (Nat × Nat × Nat) :=
  let relSegs := p.1.drop cfg.originalsDir.length
  if relSegs.length + 1 < 4 then none
  else
    match relSegs with
    | y :: m :: d :: _ =>
      match y.toNat?, m.toNat?, d.toNat? with
      | some a, some b, some c => some (a, b, c)
      | _, _, _ => none
    | _ => none

/-- Embeds `getMetadataBySha`: locate `{sha}.*` under the originals root,
rebuild the keys, re-probe the stored file (sharp metadata for images,
ffprobe for videos). -/
def getMetadataBySha (E : Tools) (cfg : Config) (fs : FS) (sha : String) :
    Except AppErr MediaMetadataDto :=
  match findOriginalBySha fs cfg sha with
  | none => .error .notFound
  | some (p, extension) =>
    match extensionToKind extension, extensionToMime extension with
    | some kind, some mime =>
      let relSegs := p.1.drop cfg.originalsDir.length
      let originalKey := buildKey "o" relSegs p.2
      let thumbKey := buildKey "t" relSegs ⟨p.2.stem, "jpg"⟩
      let content := fs.lookupD p
      let dims : Option Nat × Option Nat × Option Int :=
        match kind with
        | .image =>
          let m := E.imageMeta content
          (m.iwidth, m.iheight, none)
        | .video =>
          let pr := E.probe content
          (pr.pwidth, pr.pheight, pr.durationSec.map (fun d => jsRound (d * 1000)))
      .ok { sha256 := sha, kind := kind, mime := mime, bytes := content.length,
            width := dims.1, height := dims.2.1, durationMs := dims.2.2,
            storageKeyOriginal := originalKey, storageKeyThumb := thumbKey,
            createdAt := extractCreatedAt cfg p }
    | _, _ => .error .unsupportedMediaType

/-!
Concrete instantiations used by witnesses: a sample tool environment,
configuration, date and token.
-/

def toolsStub : Tools :=
  { hashHex := fun b => "h" ++ toString b.length
    detect := fun _ => some ⟨"image/gif", "gif"⟩
    sharpEnc := fun b _ => some (b, ⟨some 4, some 3⟩)
    sharpThumb := fun _ _ => [7]
    imageMeta := fun _ => ⟨some 4, some 3⟩
    probe := fun _ => ⟨some 15, some 640, some 480⟩
    ffmpegRemux := fun b => some b
    ffmpegReenc := fun b => some b
    ffmpegFrame := fun _ _ => some [9] }

def cfgStub : Config :=
  { tmpDir := ["data", "tmp"]
    originalsDir := ["data", "o"]
    thumbsDir := ["data", "t"]
    maxUploadBytes := 1000
    allowedImageMime := ["image/jpeg", "image/png", "image/webp"]
    allowedVideoMime := ["video/mp4", "video/quicktime"]
    thumbImageMax := 512
    thumbVideoWidth := 512 }

def dateStub : UtcDate := ⟨2026, 10, 12⟩

def tokenStub : UploadToken := ⟨"user-1", .image, none, none⟩

/-!
Claim theorems.
-/

theorem hashFoldAux (chunks : List Bytes) : ∀ (acc : Bytes) (n : Nat),
    chunks.foldl (fun (p : HashState × Nat) c => (p.1.update c, p.2 + c.length))
        (⟨acc⟩, n)
      = (⟨acc ++ chunks.flatten⟩, n + chunks.flatten.length) := by
  induction chunks with
  | nil => intro acc n; simp
  | cons c rest ih =>
    intro acc n
    rw [List.foldl_cons]
    show List.foldl _ ((⟨acc ++ c⟩ : HashState), n + c.length) rest = _
    rw [ih (acc ++ c) (n + c.length)]
    simp [List.flatten_cons, List.append_assoc, List.length_append, Nat.add_assoc]

/-- C9: `hashFile` on a file whose read stream yields `chunks` returns the
same digest as `hashBuffer` on the concatenated contents, together with a
byte count equal to the contents' length; both are plain functions of the
input bytes (the digest function `H` models `createHash('sha256')`). -/
theorem hashFile_agrees_with_hashBuffer (H : Bytes → String) (chunks : List Bytes) :
    hashFile H chunks = (hashBuffer H chunks.flatten, chunks.flatten.length) := by
  unfold hashFile hashBuffer
  rw [hashFoldAux chunks [] 0]
  simp [HashState.digest, HashState.update]

/-- C7: when no original with this digest and extension exists yet,
`resolvePathsForSha` allocates keys of exactly the form
`o/{yyyy}/{mm}/{dd}/{digest}.{ext}` and `t/{yyyy}/{mm}/{dd}/{digest}.jpg`
with POSIX separators, the thumbnail key ending in `.jpg`. -/
theorem storage_key_format (fs : FS) (cfg : Config) (today : UtcDate)
    (sha ext : String)
    (h : findExistingOriginal fs cfg sha ext = none) :
    (resolvePathsForSha fs cfg today sha ext).isNew = true ∧
    (resolvePathsForSha fs cfg today sha ext).originalKey
      = "o" ++ "/" ++ toString today.year ++ "/" ++ padStart2 (toString today.month)
        ++ "/" ++ padStart2 (toString today.day) ++ "/" ++ sha ++ "." ++ ext ∧
    (resolvePathsForSha fs cfg today sha ext).thumbKey
      = "t" ++ "/" ++ toString today.year ++ "/" ++ padStart2 (toString today.month)
        ++ "/" ++ padStart2 (toString today.day) ++ "/" ++ sha ++ "." ++ "jpg" := by
  unfold resolvePathsForSha
  rw [h]
  refine ⟨rfl, ?_, ?_⟩ <;>
    simp [buildKey, buildDatePath, fnameStr, joinPosix, strAppendAssoc]

theorem storage_key_format_witness :
    (resolvePathsForSha [] cfgStub dateStub "abc" "png").isNew = true ∧
    (resolvePathsForSha [] cfgStub dateStub "abc" "png").originalKey
      = "o" ++ "/" ++ toString dateStub.year ++ "/" ++ padStart2 (toString dateStub.month)
        ++ "/" ++ padStart2 (toString dateStub.day) ++ "/" ++ "abc" ++ "." ++ "png" ∧
    (resolvePathsForSha [] cfgStub dateStub "abc" "png").thumbKey
      = "t" ++ "/" ++ toString dateStub.year ++ "/" ++ padStart2 (toString dateStub.month)
        ++ "/" ++ padStart2 (toString dateStub.day) ++ "/" ++ "abc" ++ "." ++ "jpg" :=
  storage_key_format [] cfgStub dateStub "abc" "png" (by rfl)

/-- C4: when the probed duration exceeds the ceiling, `processVideo`
fails with the payload-too-large condition right after the probe: the
filesystem is unchanged and the effect trace holds only the ffprobe call —
no ffmpeg invocation and no write to any path. -/
theorem video_duration_precheck (E : Tools) (cfg : Config) (today : UtcDate)
    (fs : FS) (inp : VideoInput) (d : Rat)
    (hprobe : (E.probe (fs.lookupD inp.tmpPath)).durationSec = some d)
    (hd : d > inp.maxDurationSec) :
    processVideo E cfg today fs inp
      = ⟨.error .payloadTooLarge, fs, [Ev.ffprobeEv]⟩ := by
  simp only [processVideo]
  rw [hprobe]
  simp [Option.getD, hd]

theorem video_duration_precheck_witness :
    processVideo toolsStub cfgStub dateStub []
        ⟨(cfgStub.tmpDir, ⟨"u1", "tmp"⟩), "mp4", "video/mp4", 10, "o1"⟩
      = ⟨.error .payloadTooLarge, [], [Ev.ffprobeEv]⟩ :=
  video_duration_precheck toolsStub cfgStub dateStub _ _ 15 rfl (by norm_num)

theorem videoAfterStrip_cases (E : Tools) (cfg : Config) (fs : FS) (evs : List Ev)
    (today : UtcDate) (nExt : String) (tmpOut : FsPath) (b : Bytes)
    (durationSec : Rat) (pr : ProbeResult) :
    (videoAfterStrip E cfg fs evs today nExt tmpOut b durationSec pr).res
        = .error .internalErr ∨
    ∃ r, (videoAfterStrip E cfg fs evs today nExt tmpOut b durationSec pr).res
        = .ok r ∧ r.durationMs = jsRound (durationSec * 1000)
      ∧ r.paths = resolvePathsForSha fs cfg today (E.hashHex b) nExt := by
  simp only [videoAfterStrip]
  repeat' split
  all_goals first
    | exact Or.inl rfl
    | exact Or.inr ⟨_, rfl, rfl, rfl⟩

theorem jsRound_zero : jsRound (0 * 1000) = 0 := by
  norm_num [jsRound]

/-- C10: when the probe reports no duration, `processVideo` treats the
duration as 0: it never fails with the payload-too-large condition for any
nonnegative ceiling, and a successful run reports `durationMs = 0`. -/
theorem video_no_probed_duration (E : Tools) (cfg : Config) (today : UtcDate)
    (fs : FS) (inp : VideoInput)
    (hprobe : (E.probe (fs.lookupD inp.tmpPath)).durationSec = none)
    (hm : 0 ≤ inp.maxDurationSec) :
    (processVideo E cfg today fs inp).res ≠ .error .payloadTooLarge ∧
    (∀ r, (processVideo E cfg today fs inp).res = .ok r → r.durationMs = 0) := by
  simp only [processVideo]
  rw [hprobe]
  simp only [Option.getD_none]
  rw [if_neg (not_lt.mpr hm)]
  cases hne : normalizeVidExt inp.vext with
  | none => exact ⟨by simp, by intro r hr; simp at hr⟩
  | some nExt =>
    cases hrx : E.ffmpegRemux (fs.lookupD inp.tmpPath) with
    | some b =>
      obtain h | ⟨r, hr, hdm, _⟩ := videoAfterStrip_cases E cfg
        (fs.write (inp.tmpPath.1, ⟨inp.tmpOutName, nExt⟩) b)
        [Ev.ffprobeEv, Ev.ffmpegRemuxEv, Ev.writeEv (inp.tmpPath.1, ⟨inp.tmpOutName, nExt⟩)]
        today nExt (inp.tmpPath.1, ⟨inp.tmpOutName, nExt⟩) b 0
        (E.probe (fs.lookupD inp.tmpPath))
      · refine ⟨?_, ?_⟩
        · intro hcontra
          rw [h] at hcontra
          simp at hcontra
        · intro r' hr'
          rw [h] at hr'
          simp at hr'
      · refine ⟨?_, ?_⟩
        · intro hcontra
          rw [hr] at hcontra
          simp at hcontra
        · intro r' hr'
          rw [hr] at hr'
          have hrr : r = r' := by
            injection hr'
          rw [← hrr, hdm, jsRound_zero]
    | none =>
      cases hre : E.ffmpegReenc (fs.lookupD inp.tmpPath) with
      | none => exact ⟨by simp, by intro r hr; simp at hr⟩
      | some b =>
        obtain h | ⟨r, hr, hdm, _⟩ := videoAfterStrip_cases E cfg
          ((fs.unlink (inp.tmpPath.1, ⟨inp.tmpOutName, nExt⟩)).write
            (inp.tmpPath.1, ⟨inp.tmpOutName, nExt⟩) b)
          [Ev.ffprobeEv, Ev.ffmpegRemuxEv,
            Ev.unlinkEv (inp.tmpPath.1, ⟨inp.tmpOutName, nExt⟩), Ev.ffmpegReencEv,
            Ev.writeEv (inp.tmpPath.1, ⟨inp.tmpOutName, nExt⟩)]
          today nExt (inp.tmpPath.1, ⟨inp.tmpOutName, nExt⟩) b 0
          (E.probe (fs.lookupD inp.tmpPath))
        · refine ⟨?_, ?_⟩
          · intro hcontra
            rw [h] at hcontra
            simp at hcontra
          · intro r' hr'
            rw [h] at hr'
            simp at hr'
        · refine ⟨?_, ?_⟩
          · intro hcontra
            rw [hr] at hcontra
            simp at hcontra
          · intro r' hr'
            rw [hr] at hr'
            have hrr : r = r' := by
              injection hr'
            rw [← hrr, hdm, jsRound_zero]

def toolsNoDur : Tools :=
  { toolsStub with probe := fun _ => ⟨none, some 640, some 480⟩ }

theorem video_no_probed_duration_witness :
    (processVideo toolsNoDur cfgStub dateStub []
        ⟨(cfgStub.tmpDir, ⟨"u1", "tmp"⟩), "mp4", "video/mp4", 10, "o1"⟩).res
      ≠ .error .payloadTooLarge ∧
    (∀ r, (processVideo toolsNoDur cfgStub dateStub []
        ⟨(cfgStub.tmpDir, ⟨"u1", "tmp"⟩), "mp4", "video/mp4", 10, "o1"⟩).res
      = .ok r → r.durationMs = 0) :=
  video_no_probed_duration toolsNoDur cfgStub dateStub [] _ rfl (by norm_num)

theorem busboyDeliver_spec (cs : List Bytes) : ∀ limit : Nat,
    (busboyDeliver limit cs).1.flatten = cs.flatten.take limit ∧
    ((busboyDeliver limit cs).2 = true ↔ limit < cs.flatten.length) := by
  induction cs with
  | nil => intro limit; simp [busboyDeliver]
  | cons c rest ih =>
    intro limit
    by_cases h : c.length ≤ limit
    · have hstep : busboyDeliver limit (c :: rest)
          = (c :: (busboyDeliver (limit - c.length) rest).1,
             (busboyDeliver (limit - c.length) rest).2) := by
        simp [busboyDeliver, h]
      obtain ⟨ih1, ih2⟩ := ih (limit - c.length)
      constructor
      · rw [hstep]
        simp only [List.flatten_cons, ih1, List.take_append_eq_append_take]
        rw [List.take_of_length_le h]
      · rw [hstep]
        rw [ih2]
        simp only [List.flatten_cons, List.length_append]
        omega
    · have hstep : busboyDeliver limit (c :: rest) = ([c.take limit], true) := by
        simp [busboyDeliver, h]
      rw [hstep]
      constructor
      · simp only [List.flatten_cons, List.flatten, List.append_nil,
          List.take_append_eq_append_take]
        have h2 : limit - c.length = 0 := by omega
        simp [h2]
      · simp only [List.flatten_cons, List.length_append]
        constructor
        · intro _; omega
        · intro _; trivial

theorem tapRun_complete (limit : Nat) (cs : List Bytes) : ∀ w : List Bytes,
    w.flatten.length + cs.flatten.length ≤ limit →
    tapRun limit ⟨w.flatten.take snLen, min w.flatten.length snLen,
        w.flatten.length, w⟩ cs
      = (⟨(w.flatten ++ cs.flatten).take snLen,
          min (w.flatten ++ cs.flatten).length snLen,
          (w.flatten ++ cs.flatten).length, w ++ cs⟩, false) := by
  induction cs with
  | nil => intro w _; simp [tapRun]
  | cons c rest ih =>
    intro w h
    have hc : w.flatten.length + c.length ≤ limit := by
      simp only [List.flatten_cons, List.length_append] at h
      omega
    have hsn : (⟨w.flatten.take snLen, min w.flatten.length snLen,
        w.flatten.length, w⟩ : TapState).sniffBytes = min w.flatten.length snLen := rfl
    have hstate : (if min w.flatten.length snLen < snLen then
        { sniff := w.flatten.take snLen ++ c.take (snLen - min w.flatten.length snLen),
          sniffBytes := min w.flatten.length snLen
            + min c.length (snLen - min w.flatten.length snLen),
          totalBytes := w.flatten.length, written := w }
      else (⟨w.flatten.take snLen, min w.flatten.length snLen,
          w.flatten.length, w⟩ : TapState))
        = ⟨(w.flatten ++ c).take snLen, min (w.flatten ++ c).length snLen,
           w.flatten.length, w⟩ := by
      by_cases hlt : w.flatten.length < snLen
      · rw [if_pos (by omega)]
        have h1 : min w.flatten.length snLen = w.flatten.length := by omega
        have h2 : w.flatten.take snLen = w.flatten :=
          List.take_of_length_le (by omega)
        rw [h1, h2]
        have h3 : (w.flatten ++ c).take snLen
            = w.flatten ++ c.take (snLen - w.flatten.length) := by
          rw [List.take_append_eq_append_take, h2]
        have h4 : min (w.flatten ++ c).length snLen
            = w.flatten.length + min c.length (snLen - w.flatten.length) := by
          simp only [List.length_append]
          omega
        rw [h3, h4]
      · rw [if_neg (by omega)]
        have h1 : min w.flatten.length snLen = snLen := by omega
        have h2 : (w.flatten ++ c).take snLen = w.flatten.take snLen :=
          List.take_append_of_le_length (by omega)
        have h3 : min (w.flatten ++ c).length snLen = snLen := by
          simp only [List.length_append]
          omega
        rw [h1, h2, h3]
    simp only [tapRun, hsn, hstate]
    rw [if_neg (by omega)]
    have hflat : (w ++ [c]).flatten = w.flatten ++ c := by
      simp
    have hlen : (w ++ [c]).flatten.length + rest.flatten.length ≤ limit := by
      rw [hflat]
      simp only [List.flatten_cons, List.length_append] at h ⊢
      omega
    have := ih (w ++ [c]) hlen
    rw [hflat] at this
    have hwl : (w.flatten ++ c).length = w.flatten.length + c.length := by
      simp
    rw [← hwl]
    rw [this]
    simp [List.append_assoc, List.flatten_cons]

theorem tapRun_init (limit : Nat) (cs : List Bytes)
    (h : cs.flatten.length ≤ limit) :
    tapRun limit ⟨[], 0, 0, []⟩ cs
      = (⟨cs.flatten.take snLen, min cs.flatten.length snLen,
          cs.flatten.length, cs⟩, false) := by
  have := tapRun_complete limit cs [] (by simpa using h)
  simpa using this

/-- C3: when the stream's cumulative byte count exceeds the effective
ceiling `min(maxUploadBytes, token.maxSize ?? maxUploadBytes)`, the upload
fails with the payload-too-large condition, the temp file is gone
afterwards, no file under the originals root is touched, and the bytes
that ever reach the temp file never exceed the ceiling (the limit is
enforced during streaming, not only at completion). -/
theorem oversize_upload_rejected (E : Tools) (cfg : Config) (today : UtcDate)
    (fs : FS) (chunks : List Bytes) (filename : String) (token : UploadToken)
    (tmpName tmpOutName mediaId : String)
    (hover : effectiveLimit cfg token < chunks.flatten.length)
    (htmp : dirUnder cfg.originalsDir cfg.tmpDir = false) :
    (processIncomingFile E cfg today fs chunks filename token
        (effectiveLimit cfg token) tmpName tmpOutName mediaId false).res
      = .error .payloadTooLarge ∧
    (processIncomingFile E cfg today fs chunks filename token
        (effectiveLimit cfg token) tmpName tmpOutName mediaId false).fs.lookup
        (cfg.tmpDir, ⟨tmpName, "tmp"⟩) = none ∧
    (∀ p : FsPath, dirUnder cfg.originalsDir p.1 = true →
      (processIncomingFile E cfg today fs chunks filename token
        (effectiveLimit cfg token) tmpName tmpOutName mediaId false).fs.lookup p
        = fs.lookup p) ∧
    (tapRun (effectiveLimit cfg token) ⟨[], 0, 0, []⟩
        (busboyDeliver (effectiveLimit cfg token) chunks).1).1.written.flatten.length
      ≤ effectiveLimit cfg token := by
  obtain ⟨hb1, hb2⟩ := busboyDeliver_spec chunks (effectiveLimit cfg token)
  have hdel : (busboyDeliver (effectiveLimit cfg token) chunks).1.flatten.length
      ≤ effectiveLimit cfg token := by
    rw [hb1]
    simp
  have htap := tapRun_init (effectiveLimit cfg token)
    (busboyDeliver (effectiveLimit cfg token) chunks).1 hdel
  have hflag : (busboyDeliver (effectiveLimit cfg token) chunks).2 = true :=
    hb2.mpr hover
  have hcore : processCore E cfg today fs chunks token (effectiveLimit cfg token)
        tmpName tmpOutName mediaId false
      = (.error .payloadTooLarge,
         (fs.write (cfg.tmpDir, ⟨tmpName, "tmp"⟩)
           (busboyDeliver (effectiveLimit cfg token) chunks).1.flatten).unlink
           (cfg.tmpDir, ⟨tmpName, "tmp"⟩),
         [Ev.writeEv (cfg.tmpDir, ⟨tmpName, "tmp"⟩),
          Ev.unlinkEv (cfg.tmpDir, ⟨tmpName, "tmp"⟩)]) := by
    simp [processCore, htap, hflag]
  refine ⟨?_, ?_, ?_, ?_⟩
  · simp [processIncomingFile, hcore]
  · simp only [processIncomingFile, hcore]
    exact FS.lookup_unlink_self _ _
  · intro p hp
    have hne : p ≠ (cfg.tmpDir, ⟨tmpName, "tmp"⟩) := by
      intro hpe
      rw [hpe] at hp
      simp only at hp
      rw [hp] at htmp
      exact Bool.true_eq_false.mp htmp
    simp only [processIncomingFile, hcore]
    rw [FS.lookup_unlink_ne _ _ _ hne, FS.lookup_write_ne _ _ _ _ hne]
  · rw [htap]
    exact hdel

def tokenSmall : UploadToken := ⟨"user-1", .image, some 2, none⟩

theorem oversize_upload_rejected_witness :
    (processIncomingFile toolsStub cfgStub dateStub [] [[1, 2, 3]] "f.png"
        tokenSmall (effectiveLimit cfgStub tokenSmall) "tmp1" "out1" "m1" false).res
      = .error .payloadTooLarge ∧
    (processIncomingFile toolsStub cfgStub dateStub [] [[1, 2, 3]] "f.png"
        tokenSmall (effectiveLimit cfgStub tokenSmall) "tmp1" "out1" "m1" false).fs.lookup
        (cfgStub.tmpDir, ⟨"tmp1", "tmp"⟩) = none ∧
    (∀ p : FsPath, dirUnder cfgStub.originalsDir p.1 = true →
      (processIncomingFile toolsStub cfgStub dateStub [] [[1, 2, 3]] "f.png"
        tokenSmall (effectiveLimit cfgStub tokenSmall) "tmp1" "out1" "m1" false).fs.lookup p
        = FS.lookup [] p) ∧
    (tapRun (effectiveLimit cfgStub tokenSmall) ⟨[], 0, 0, []⟩
        (busboyDeliver (effectiveLimit cfgStub tokenSmall) [[1, 2, 3]]).1).1.written.flatten.length
      ≤ effectiveLimit cfgStub tokenSmall :=
  oversize_upload_rejected toolsStub cfgStub dateStub [] [[1, 2, 3]] "f.png"
    tokenSmall "tmp1" "out1" "m1" (by decide) (by decide)

/-- C5: the upload outcome (result, final filesystem, effect trace) is the
same function of the body bytes and the claim for any client-supplied
filename — the filename reaches only the request log — and when the body
fits the ceiling, the sniff buffer handed to content-type detection is
exactly the first `SNIFF_LENGTH` bytes of the body. -/
theorem detection_independent_of_filename (E : Tools) (cfg : Config)
    (today : UtcDate) (fs : FS) (chunks : List Bytes) (f1 f2 : String)
    (token : UploadToken) (hardLimit : Nat) (tmpName tmpOutName mediaId : String)
    (streamErr : Bool) :
    ((processIncomingFile E cfg today fs chunks f1 token hardLimit
        tmpName tmpOutName mediaId streamErr).res
      = (processIncomingFile E cfg today fs chunks f2 token hardLimit
        tmpName tmpOutName mediaId streamErr).res ∧
     (processIncomingFile E cfg today fs chunks f1 token hardLimit
        tmpName tmpOutName mediaId streamErr).fs
      = (processIncomingFile E cfg today fs chunks f2 token hardLimit
        tmpName tmpOutName mediaId streamErr).fs ∧
     (processIncomingFile E cfg today fs chunks f1 token hardLimit
        tmpName tmpOutName mediaId streamErr).evs
      = (processIncomingFile E cfg today fs chunks f2 token hardLimit
        tmpName tmpOutName mediaId streamErr).evs) ∧
    (chunks.flatten.length ≤ hardLimit →
      (tapRun hardLimit ⟨[], 0, 0, []⟩ (busboyDeliver hardLimit chunks).1).1.sniff
        = chunks.flatten.take snLen) := by
  constructor
  · exact ⟨rfl, rfl, rfl⟩
  · intro h
    obtain ⟨hb1, _⟩ := busboyDeliver_spec chunks hardLimit
    have hdel : (busboyDeliver hardLimit chunks).1.flatten.length ≤ hardLimit := by
      rw [hb1]
      simp
    rw [tapRun_init hardLimit _ hdel]
    rw [hb1, List.take_of_length_le h]

theorem detection_independent_of_filename_witness :
    ((processIncomingFile toolsStub cfgStub dateStub [] [[1, 2]] "a.png"
        tokenStub 1000 "tmp1" "out1" "m1" false).res
      = (processIncomingFile toolsStub cfgStub dateStub [] [[1, 2]] "b.jpg"
        tokenStub 1000 "tmp1" "out1" "m1" false).res ∧
     (processIncomingFile toolsStub cfgStub dateStub [] [[1, 2]] "a.png"
        tokenStub 1000 "tmp1" "out1" "m1" false).fs
      = (processIncomingFile toolsStub cfgStub dateStub [] [[1, 2]] "b.jpg"
        tokenStub 1000 "tmp1" "out1" "m1" false).fs ∧
     (processIncomingFile toolsStub cfgStub dateStub [] [[1, 2]] "a.png"
        tokenStub 1000 "tmp1" "out1" "m1" false).evs
      = (processIncomingFile toolsStub cfgStub dateStub [] [[1, 2]] "b.jpg"
        tokenStub 1000 "tmp1" "out1" "m1" false).evs) ∧
    (tapRun 1000 ⟨[], 0, 0, []⟩ (busboyDeliver 1000 [[1, 2]]).1).1.sniff
      = (List.flatten [[1, 2]]).take snLen :=
  ⟨(detection_independent_of_filename toolsStub cfgStub dateStub [] [[1, 2]]
      "a.png" "b.jpg" tokenStub 1000 "tmp1" "out1" "m1" false).1,
   (detection_independent_of_filename toolsStub cfgStub dateStub [] [[1, 2]]
      "a.png" "b.jpg" tokenStub 1000 "tmp1" "out1" "m1" false).2 (by decide)⟩

/-- C2 evidence: on the disallowed-MIME exit path the temp file is NOT
removed.  With an image claim and a body sniffed as `image/gif` (not in
the image allow-list), `processIncomingFile` throws unsupported-media-type
and the final filesystem still holds the temp file with the uploaded
bytes — the source's `assertMimeAllowed` throw happens before the
`try/finally` that unlinks the temp file. -/
theorem tmpfile_leak_on_disallowed_mime :
    (processIncomingFile toolsStub cfgStub dateStub [] [[1, 2, 3]] "f.png"
        tokenStub 1000 "tmp1" "out1" "m1" false).res
      = .error .unsupportedMediaType ∧
    (processIncomingFile toolsStub cfgStub dateStub [] [[1, 2, 3]] "f.png"
        tokenStub 1000 "tmp1" "out1" "m1" false).fs.lookup
        (cfgStub.tmpDir, ⟨"tmp1", "tmp"⟩) = some [1, 2, 3] := by
  constructor
  · rfl
  · rfl

theorem findExistingOriginal_spec (fs : FS) (cfg : Config) (sha ext : String)
    (p : FsPath) (h : findExistingOriginal fs cfg sha ext = some p) :
    dirUnder cfg.originalsDir p.1 = true ∧ p.2.stem = sha ∧ p.2.fext = ext := by
  unfold findExistingOriginal at h
  cases hf : List.find? (origMatch cfg sha ext) fs with
  | none => rw [hf] at h; simp at h
  | some e =>
    rw [hf] at h
    simp at h
    have hm := List.find?_some hf
    unfold origMatch at hm
    simp only [Bool.and_eq_true, beq_iff_eq] at hm
    rw [← h]
    exact ⟨hm.1.1, hm.1.2, hm.2⟩

theorem resolve_orig_ne_thumb (fs : FS) (cfg : Config) (today : UtcDate)
    (sha ext : String) (hroots : cfg.originalsDir ≠ cfg.thumbsDir) :
    (resolvePathsForSha fs cfg today sha ext).originalPath
      ≠ (resolvePathsForSha fs cfg today sha ext).thumbPath := by
  unfold resolvePathsForSha
  cases hfind : findExistingOriginal fs cfg sha ext with
  | none =>
    intro he
    have hd := congrArg Prod.fst he
    simp only at hd
    exact hroots (appendRightCancel _ _ _ hd)
  | some p =>
    obtain ⟨hund, _, _⟩ := findExistingOriginal_spec fs cfg sha ext p hfind
    obtain ⟨r, hr⟩ := (dirUnder_iff _ _).mp hund
    intro he
    have hd := congrArg Prod.fst he
    simp only [deriveThumbPathFromOriginal] at hd
    rw [hr, dropLenAppend] at hd
    exact hroots (appendRightCancel _ _ _ hd)

theorem resolve_thumb_fext (fs : FS) (cfg : Config) (today : UtcDate)
    (sha ext : String) :
    (resolvePathsForSha fs cfg today sha ext).thumbPath.2.fext = "jpg" := by
  unfold resolvePathsForSha deriveThumbPathFromOriginal
  cases findExistingOriginal fs cfg sha ext <;> rfl

theorem FS.existsFile_unlink_of (fs : FS) (p q : FsPath)
    (h : fs.existsFile q = true) (hne : q ≠ p) :
    (fs.unlink p).existsFile q = true := by
  rw [FS.existsFile, FS.lookup_unlink_ne _ _ _ hne]
  exact h

theorem imageAfterNormalize_thumb_skip (E : Tools) (cfg : Config)
    (today : UtcDate) (fs : FS) (nExt : String) (data : Bytes) (info : ImgInfo)
    (hone : (resolvePathsForSha fs cfg today (E.hashHex data) nExt).originalPath
      ≠ (resolvePathsForSha fs cfg today (E.hashHex data) nExt).thumbPath)
    (hex : fs.existsFile
      (resolvePathsForSha fs cfg today (E.hashHex data) nExt).thumbPath = true) :
    Ev.writeEv (resolvePathsForSha fs cfg today (E.hashHex data) nExt).thumbPath
      ∉ (imageAfterNormalize E cfg today fs nExt data info).evs ∧
    (imageAfterNormalize E cfg today fs nExt data info).fs.lookup
        (resolvePathsForSha fs cfg today (E.hashHex data) nExt).thumbPath
      = fs.lookup (resolvePathsForSha fs cfg today (E.hashHex data) nExt).thumbPath ∧
    ∀ r, (imageAfterNormalize E cfg today fs nExt data info).res = .ok r →
      r.paths = resolvePathsForSha fs cfg today (E.hashHex data) nExt := by
  simp only [imageAfterNormalize]
  by_cases hnew :
      (resolvePathsForSha fs cfg today (E.hashHex data) nExt).isNew = true
  · simp only [hnew, if_true]
    have hex1 : ((fs.write
        (resolvePathsForSha fs cfg today (E.hashHex data) nExt).originalPath
        data).existsFile
        (resolvePathsForSha fs cfg today (E.hashHex data) nExt).thumbPath) = true :=
      FS.existsFile_write_of fs _ data _ hex
    rw [hex1]
    simp only [Bool.not_true, Bool.false_eq_true, if_false, List.append_nil]
    refine ⟨?_, ?_, ?_⟩
    · intro hmem
      simp only [List.mem_singleton, Ev.writeEv.injEq] at hmem
      exact hone hmem.symm
    · exact FS.lookup_write_ne fs _ data _ (Ne.symm hone)
    · intro r hr
      injection hr with h
      rw [← h]
  · simp only [Bool.not_eq_true] at hnew
    simp only [hnew, Bool.false_eq_true, if_false]
    rw [hex]
    simp only [Bool.not_true, Bool.false_eq_true, if_false, List.append_nil]
    refine ⟨by simp, by simp, ?_⟩
    intro r hr
    injection hr with h
    rw [← h]

theorem imageAfterNormalize_paths (E : Tools) (cfg : Config) (today : UtcDate)
    (fs : FS) (nExt : String) (data : Bytes) (info : ImgInfo) :
    ∀ r, (imageAfterNormalize E cfg today fs nExt data info).res = .ok r →
      r.paths = resolvePathsForSha fs cfg today (E.hashHex data) nExt := by
  intro r hr
  unfold imageAfterNormalize at hr
  injection hr with h
  rw [← h]

theorem videoAfterStrip_paths (E : Tools) (cfg : Config) (fs : FS)
    (evs0 : List Ev) (today : UtcDate) (nExt : String) (tmpOut : FsPath)
    (b : Bytes) (durationSec : Rat) (pr : ProbeResult) :
    ∀ r, (videoAfterStrip E cfg fs evs0 today nExt tmpOut b durationSec pr).res
        = .ok r →
      r.paths = resolvePathsForSha fs cfg today (E.hashHex b) nExt := by
  intro r hr
  obtain h | ⟨r2, hr2, _, hp⟩ :=
    videoAfterStrip_cases E cfg fs evs0 today nExt tmpOut b durationSec pr
  · rw [h] at hr
    simp at hr
  · rw [hr2] at hr
    injection hr with h2
    rw [← h2]
    exact hp

theorem videoAfterStrip_thumb_skip (E : Tools) (cfg : Config) (fs : FS)
    (evs0 : List Ev) (today : UtcDate) (nExt : String) (tmpOut : FsPath)
    (b : Bytes) (durationSec : Rat) (pr : ProbeResult)
    (hone : (resolvePathsForSha fs cfg today (E.hashHex b) nExt).originalPath
      ≠ (resolvePathsForSha fs cfg today (E.hashHex b) nExt).thumbPath)
    (htne : tmpOut ≠ (resolvePathsForSha fs cfg today (E.hashHex b) nExt).thumbPath)
    (hevs0 : Ev.writeEv (resolvePathsForSha fs cfg today (E.hashHex b) nExt).thumbPath
      ∉ evs0)
    (hex : fs.existsFile
      (resolvePathsForSha fs cfg today (E.hashHex b) nExt).thumbPath = true) :
    Ev.writeEv (resolvePathsForSha fs cfg today (E.hashHex b) nExt).thumbPath
      ∉ (videoAfterStrip E cfg fs evs0 today nExt tmpOut b durationSec pr).evs ∧
    (videoAfterStrip E cfg fs evs0 today nExt tmpOut b durationSec pr).fs.lookup
        (resolvePathsForSha fs cfg today (E.hashHex b) nExt).thumbPath
      = fs.lookup (resolvePathsForSha fs cfg today (E.hashHex b) nExt).thumbPath := by
  simp only [videoAfterStrip]
  by_cases hnew :
      (resolvePathsForSha fs cfg today (E.hashHex b) nExt).isNew = true
  · simp only [hnew, if_true]
    have hex1 : ((fs.write
        (resolvePathsForSha fs cfg today (E.hashHex b) nExt).originalPath
        b).existsFile
        (resolvePathsForSha fs cfg today (E.hashHex b) nExt).thumbPath) = true :=
      FS.existsFile_write_of fs _ b _ hex
    rw [hex1]
    simp only [Bool.not_true, Bool.false_eq_true, if_false]
    constructor
    · intro hmem
      simp only [List.mem_append, List.mem_singleton, Ev.writeEv.injEq] at hmem
      rcases hmem with (hmem | hmem) | hmem
      · exact hevs0 hmem
      · exact hone hmem.symm
      · cases hmem
    · rw [FS.lookup_unlink_ne _ _ _ (Ne.symm htne),
        FS.lookup_write_ne fs _ b _ (Ne.symm hone)]
  · simp only [Bool.not_eq_true] at hnew
    simp only [hnew, Bool.false_eq_true, if_false]
    rw [hex]
    simp only [Bool.not_true, Bool.false_eq_true, if_false, List.append_nil]
    constructor
    · intro hmem
      simp only [List.mem_append, List.mem_singleton] at hmem
      rcases hmem with hmem | hmem
      · exact hevs0 hmem
      · cases hmem
    · rw [FS.lookup_unlink_ne _ _ _ (Ne.symm htne)]

theorem normalizeVidExt_spec (e x : String) (h : normalizeVidExt e = some x) :
    x = "mp4" ∨ x = "mov" := by
  simp only [normalizeVidExt] at h
  split at h
  · exact Or.inl (Option.some.inj h).symm
  · split at h
    · exact Or.inr (Option.some.inj h).symm
    · cases h

/-- C6: thumbnail generation is idempotent.  For an image or a video
upload that succeeds, if a file already exists at the resolved thumbnail
path then no write to that path occurs (no thumbnail (re)generation
event) and the thumbnail file is unchanged afterwards. -/
theorem thumbnail_generation_idempotent (E : Tools) (cfg : Config)
    (today : UtcDate) (fs : FS) (inpI : ImageInput) (inpV : VideoInput)
    (hroots : cfg.originalsDir ≠ cfg.thumbsDir) :
    (∀ r, (processImage E cfg today fs inpI).res = .ok r →
      fs.existsFile r.paths.thumbPath = true →
      Ev.writeEv r.paths.thumbPath ∉ (processImage E cfg today fs inpI).evs ∧
      (processImage E cfg today fs inpI).fs.lookup r.paths.thumbPath
        = fs.lookup r.paths.thumbPath) ∧
    (∀ r, (processVideo E cfg today fs inpV).res = .ok r →
      fs.existsFile r.paths.thumbPath = true →
      Ev.writeEv r.paths.thumbPath ∉ (processVideo E cfg today fs inpV).evs ∧
      (processVideo E cfg today fs inpV).fs.lookup r.paths.thumbPath
        = fs.lookup r.paths.thumbPath) := by
  constructor
  · intro r hr hex
    cases hne : normalizeImgExt inpI.iext with
    | none =>
      have heq : processImage E cfg today fs inpI
          = ⟨.error .unsupportedMediaType, fs, []⟩ := by
        simp [processImage, hne]
      rw [heq] at hr
      simp at hr
    | some nExt =>
      cases hse : E.sharpEnc (fs.lookupD inpI.tmpPath) nExt with
      | none =>
        have heq : processImage E cfg today fs inpI
            = ⟨.error .internalErr, fs, []⟩ := by
          simp [processImage, hne, hse]
        rw [heq] at hr
        simp at hr
      | some pr =>
        obtain ⟨data, info⟩ := pr
        have heq : processImage E cfg today fs inpI
            = imageAfterNormalize E cfg today fs nExt data info := by
          simp [processImage, hne, hse]
        rw [heq] at hr ⊢
        have hpr := imageAfterNormalize_paths E cfg today fs nExt data info r hr
        rw [hpr] at hex ⊢
        have hone := resolve_orig_ne_thumb fs cfg today (E.hashHex data) nExt hroots
        have h3 := imageAfterNormalize_thumb_skip E cfg today fs nExt data info
          hone hex
        exact ⟨h3.1, h3.2.1⟩
  · intro r hr hex
    by_cases hdur :
        (E.probe (fs.lookupD inpV.tmpPath)).durationSec.getD 0 > inpV.maxDurationSec
    · have heq : processVideo E cfg today fs inpV
          = ⟨.error .payloadTooLarge, fs, [Ev.ffprobeEv]⟩ := by
        simp [processVideo, hdur]
      rw [heq] at hr
      simp at hr
    · cases hne : normalizeVidExt inpV.vext with
      | none =>
        have heq : processVideo E cfg today fs inpV
            = ⟨.error .unsupportedMediaType, fs, [Ev.ffprobeEv]⟩ := by
          simp [processVideo, hdur, hne]
        rw [heq] at hr
        simp at hr
      | some nExt =>
        have hnej : nExt ≠ "jpg" := by
          rcases normalizeVidExt_spec inpV.vext nExt hne with h4 | h4 <;>
            (rw [h4]; decide)
        cases hrx : E.ffmpegRemux (fs.lookupD inpV.tmpPath) with
        | some b =>
          have heq : processVideo E cfg today fs inpV
              = videoAfterStrip E cfg
                  (fs.write (inpV.tmpPath.1, ⟨inpV.tmpOutName, nExt⟩) b)
                  [Ev.ffprobeEv, Ev.ffmpegRemuxEv,
                    Ev.writeEv (inpV.tmpPath.1, ⟨inpV.tmpOutName, nExt⟩)]
                  today nExt (inpV.tmpPath.1, ⟨inpV.tmpOutName, nExt⟩) b
                  ((E.probe (fs.lookupD inpV.tmpPath)).durationSec.getD 0)
                  (E.probe (fs.lookupD inpV.tmpPath)) := by
            simp [processVideo, hdur, hne, hrx]
          rw [heq] at hr ⊢
          have hpr := videoAfterStrip_paths E cfg
            (fs.write (inpV.tmpPath.1, ⟨inpV.tmpOutName, nExt⟩) b) _ today nExt
            (inpV.tmpPath.1, ⟨inpV.tmpOutName, nExt⟩) b _ _ r hr
          rw [hpr] at hex ⊢
          have hone := resolve_orig_ne_thumb
            (fs.write (inpV.tmpPath.1, ⟨inpV.tmpOutName, nExt⟩) b) cfg today
            (E.hashHex b) nExt hroots
          have htne : (inpV.tmpPath.1, (⟨inpV.tmpOutName, nExt⟩ : FName))
              ≠ (resolvePathsForSha
                  (fs.write (inpV.tmpPath.1, ⟨inpV.tmpOutName, nExt⟩) b) cfg today
                  (E.hashHex b) nExt).thumbPath := by
            intro he
            have hfx := congrArg (fun p : FsPath => p.2.fext) he
            simp only [resolve_thumb_fext] at hfx
            exact hnej hfx
          have hevs0 : Ev.writeEv (resolvePathsForSha
              (fs.write (inpV.tmpPath.1, ⟨inpV.tmpOutName, nExt⟩) b) cfg today
              (E.hashHex b) nExt).thumbPath
              ∉ [Ev.ffprobeEv, Ev.ffmpegRemuxEv,
                 Ev.writeEv (inpV.tmpPath.1, ⟨inpV.tmpOutName, nExt⟩)] := by
            intro hmem
            simp only [List.mem_cons, List.mem_singleton] at hmem
            rcases hmem with h5 | h5 | h5 | h5
            · cases h5
            · cases h5
            · exact htne (Ev.writeEv.inj h5).symm
            · cases h5
          have hex1 : ((fs.write (inpV.tmpPath.1, ⟨inpV.tmpOutName, nExt⟩)
              b).existsFile (resolvePathsForSha
                (fs.write (inpV.tmpPath.1, ⟨inpV.tmpOutName, nExt⟩) b) cfg today
                (E.hashHex b) nExt).thumbPath) = true :=
            FS.existsFile_write_of fs _ b _ hex
          have h3 := videoAfterStrip_thumb_skip E cfg
            (fs.write (inpV.tmpPath.1, ⟨inpV.tmpOutName, nExt⟩) b)
            [Ev.ffprobeEv, Ev.ffmpegRemuxEv,
              Ev.writeEv (inpV.tmpPath.1, ⟨inpV.tmpOutName, nExt⟩)]
            today nExt (inpV.tmpPath.1, ⟨inpV.tmpOutName, nExt⟩) b
            ((E.probe (fs.lookupD inpV.tmpPath)).durationSec.getD 0)
            (E.probe (fs.lookupD inpV.tmpPath)) hone htne hevs0 hex1
          refine ⟨h3.1, ?_⟩
          rw [h3.2, FS.lookup_write_ne fs _ b _ (Ne.symm htne)]
        | none =>
          cases hre : E.ffmpegReenc (fs.lookupD inpV.tmpPath) with
          | none =>
            have heq : processVideo E cfg today fs inpV
                = ⟨.error .internalErr,
                   fs.unlink (inpV.tmpPath.1, ⟨inpV.tmpOutName, nExt⟩),
                   [Ev.ffprobeEv, Ev.ffmpegRemuxEv,
                    Ev.unlinkEv (inpV.tmpPath.1, ⟨inpV.tmpOutName, nExt⟩),
                    Ev.ffmpegReencEv]⟩ := by
              simp [processVideo, hdur, hne, hrx, hre]
            rw [heq] at hr
            simp at hr
          | some b =>
            have heq : processVideo E cfg today fs inpV
                = videoAfterStrip E cfg
                    ((fs.unlink (inpV.tmpPath.1, ⟨inpV.tmpOutName, nExt⟩)).write
                      (inpV.tmpPath.1, ⟨inpV.tmpOutName, nExt⟩) b)
                    [Ev.ffprobeEv, Ev.ffmpegRemuxEv,
                      Ev.unlinkEv (inpV.tmpPath.1, ⟨inpV.tmpOutName, nExt⟩),
                      Ev.ffmpegReencEv,
                      Ev.writeEv (inpV.tmpPath.1, ⟨inpV.tmpOutName, nExt⟩)]
                    today nExt (inpV.tmpPath.1, ⟨inpV.tmpOutName, nExt⟩) b
                    ((E.probe (fs.lookupD inpV.tmpPath)).durationSec.getD 0)
                    (E.probe (fs.lookupD inpV.tmpPath)) := by
              simp [processVideo, hdur, hne, hrx, hre]
            rw [heq] at hr ⊢
            have hpr := videoAfterStrip_paths E cfg
              ((fs.unlink (inpV.tmpPath.1, ⟨inpV.tmpOutName, nExt⟩)).write
                (inpV.tmpPath.1, ⟨inpV.tmpOutName, nExt⟩) b) _ today nExt
              (inpV.tmpPath.1, ⟨inpV.tmpOutName, nExt⟩) b _ _ r hr
            rw [hpr] at hex ⊢
            have hone := resolve_orig_ne_thumb
              ((fs.unlink (inpV.tmpPath.1, ⟨inpV.tmpOutName, nExt⟩)).write
                (inpV.tmpPath.1, ⟨inpV.tmpOutName, nExt⟩) b) cfg today
              (E.hashHex b) nExt hroots
            have htne : (inpV.tmpPath.1, (⟨inpV.tmpOutName, nExt⟩ : FName))
                ≠ (resolvePathsForSha
                    ((fs.unlink (inpV.tmpPath.1, ⟨inpV.tmpOutName, nExt⟩)).write
                      (inpV.tmpPath.1, ⟨inpV.tmpOutName, nExt⟩) b) cfg today
                    (E.hashHex b) nExt).thumbPath := by
              intro he
              have hfx := congrArg (fun p : FsPath => p.2.fext) he
              simp only [resolve_thumb_fext] at hfx
              exact hnej hfx
            have hevs0 : Ev.writeEv (resolvePathsForSha
                ((fs.unlink (inpV.tmpPath.1, ⟨inpV.tmpOutName, nExt⟩)).write
                  (inpV.tmpPath.1, ⟨inpV.tmpOutName, nExt⟩) b) cfg today
                (E.hashHex b) nExt).thumbPath
                ∉ [Ev.ffprobeEv, Ev.ffmpegRemuxEv,
                   Ev.unlinkEv (inpV.tmpPath.1, ⟨inpV.tmpOutName, nExt⟩),
                   Ev.ffmpegReencEv,
                   Ev.writeEv (inpV.tmpPath.1, ⟨inpV.tmpOutName, nExt⟩)] := by
              intro hmem
              simp only [List.mem_cons, List.mem_singleton] at hmem
              rcases hmem with h5 | h5 | h5 | h5 | h5 | h5
              · cases h5
              · cases h5
              · cases h5
              · cases h5
              · exact htne (Ev.writeEv.inj h5).symm
              · cases h5
            have hex1 : (((fs.unlink (inpV.tmpPath.1, ⟨inpV.tmpOutName, nExt⟩)).write
                (inpV.tmpPath.1, ⟨inpV.tmpOutName, nExt⟩) b).existsFile
                (resolvePathsForSha
                  ((fs.unlink (inpV.tmpPath.1, ⟨inpV.tmpOutName, nExt⟩)).write
                    (inpV.tmpPath.1, ⟨inpV.tmpOutName, nExt⟩) b) cfg today
                  (E.hashHex b) nExt).thumbPath) = true :=
              FS.existsFile_write_of _ _ b _
                (FS.existsFile_unlink_of fs _ _ hex (Ne.symm htne))
            have h3 := videoAfterStrip_thumb_skip E cfg
              ((fs.unlink (inpV.tmpPath.1, ⟨inpV.tmpOutName, nExt⟩)).write
                (inpV.tmpPath.1, ⟨inpV.tmpOutName, nExt⟩) b)
              [Ev.ffprobeEv, Ev.ffmpegRemuxEv,
                Ev.unlinkEv (inpV.tmpPath.1, ⟨inpV.tmpOutName, nExt⟩),
                Ev.ffmpegReencEv,
                Ev.writeEv (inpV.tmpPath.1, ⟨inpV.tmpOutName, nExt⟩)]
              today nExt (inpV.tmpPath.1, ⟨inpV.tmpOutName, nExt⟩) b
              ((E.probe (fs.lookupD inpV.tmpPath)).durationSec.getD 0)
              (E.probe (fs.lookupD inpV.tmpPath)) hone htne hevs0 hex1
            refine ⟨h3.1, ?_⟩
            rw [h3.2, FS.lookup_write_ne _ _ b _ (Ne.symm htne),
              FS.lookup_unlink_ne fs _ _ (Ne.symm htne)]

def tmpPathW : FsPath := (["data", "tmp"], ⟨"u1", "tmp"⟩)

def thumbPathW : FsPath := (["data", "t", "2026", "10", "12"], ⟨"h1", "jpg"⟩)

def fsW6 : FS := [(thumbPathW, [9]), (tmpPathW, [1])]

def inpI6 : ImageInput := ⟨tmpPathW, "png", "image/png"⟩

def inpV6 : VideoInput := ⟨tmpPathW, "mp4", "video/mp4", 60, "o1"⟩

def resI6 : ImageProcessResult :=
  { sha := "h1", bytes := 1, mime := "image/png", iext := "png",
    width := 4, height := 3,
    paths := { originalPath := (["data", "o", "2026", "10", "12"], ⟨"h1", "png"⟩),
               thumbPath := thumbPathW,
               originalKey := "o/2026/10/12/h1.png",
               thumbKey := "t/2026/10/12/h1.jpg",
               isNew := true, relativeDir := "2026/10/12" } }

theorem thumbnail_generation_idempotent_witness :
    Ev.writeEv resI6.paths.thumbPath
      ∉ (processImage toolsStub cfgStub dateStub fsW6 inpI6).evs ∧
    (processImage toolsStub cfgStub dateStub fsW6 inpI6).fs.lookup
        resI6.paths.thumbPath
      = fsW6.lookup resI6.paths.thumbPath :=
  (thumbnail_generation_idempotent toolsStub cfgStub dateStub fsW6 inpI6 inpV6
    (by decide)).1 resI6 (by rfl) (by decide)

theorem findExistingOriginal_none (fs : FS) (cfg : Config) (sha ext : String)
    (h : ∀ e ∈ fs, origMatch cfg sha ext e = false) :
    findExistingOriginal fs cfg sha ext = none := by
  unfold findExistingOriginal
  rw [List.find?_eq_none.mpr]
  · rfl
  · intro x hx
    simp [h x hx]

theorem resolve_new (fs : FS) (cfg : Config) (d : UtcDate) (sha ext : String)
    (hfind : findExistingOriginal fs cfg sha ext = none) :
    resolvePathsForSha fs cfg d sha ext
      = { originalPath := (cfg.originalsDir ++ buildDatePath d, ⟨sha, ext⟩),
          thumbPath := (cfg.thumbsDir ++ buildDatePath d, ⟨sha, "jpg"⟩),
          originalKey := buildKey "o" (buildDatePath d) ⟨sha, ext⟩,
          thumbKey := buildKey "t" (buildDatePath d) ⟨sha, "jpg"⟩,
          isNew := true,
          relativeDir := joinPosix (buildDatePath d) } := by
  unfold resolvePathsForSha
  rw [hfind]

theorem resolve_found (fs : FS) (cfg : Config) (d : UtcDate) (sha ext : String)
    (segs : List String) (fn : FName)
    (hfind : findExistingOriginal fs cfg sha ext
      = some (cfg.originalsDir ++ segs, fn)) :
    resolvePathsForSha fs cfg d sha ext
      = { originalPath := (cfg.originalsDir ++ segs, fn),
          thumbPath := (cfg.thumbsDir ++ segs, ⟨fn.stem, "jpg"⟩),
          originalKey := buildKey "o" segs fn,
          thumbKey := buildKey "t" segs ⟨fn.stem, "jpg"⟩,
          isNew := false,
          relativeDir := relDirString segs } := by
  unfold resolvePathsForSha
  rw [hfind]
  simp [deriveThumbPathFromOriginal, dropLenAppend]

theorem ian_res_ok (E : Tools) (cfg : Config) (today : UtcDate) (fs : FS)
    (nExt : String) (data : Bytes) (info : ImgInfo) :
    ∃ r, (imageAfterNormalize E cfg today fs nExt data info).res = .ok r ∧
      r.sha = E.hashHex data ∧ r.iext = nExt ∧ r.mime = imgExtToMime nExt ∧
      r.width = info.iwidth.getD 0 ∧ r.height = info.iheight.getD 0 ∧
      r.paths = resolvePathsForSha fs cfg today (E.hashHex data) nExt :=
  ⟨_, rfl, rfl, rfl, rfl, rfl, rfl, rfl⟩

/-- After a first upload stored a new original, the next glob search for
the same digest and extension finds exactly that stored file. -/
theorem ian_find_after (E : Tools) (cfg : Config) (d1 : UtcDate) (fs0 : FS)
    (nExt : String) (data : Bytes) (info : ImgInfo)
    (hroots : cfg.originalsDir ≠ cfg.thumbsDir)
    (hfind : findExistingOriginal fs0 cfg (E.hashHex data) nExt = none)
    (hthumb : dirUnder cfg.originalsDir (cfg.thumbsDir ++ buildDatePath d1) = false) :
    findExistingOriginal (imageAfterNormalize E cfg d1 fs0 nExt data info).fs cfg
        (E.hashHex data) nExt
      = some (cfg.originalsDir ++ buildDatePath d1, ⟨E.hashHex data, nExt⟩) := by
  have hone := resolve_orig_ne_thumb fs0 cfg d1 (E.hashHex data) nExt hroots
  rw [resolve_new fs0 cfg d1 (E.hashHex data) nExt hfind] at hone
  simp only at hone
  have horig : origMatch cfg (E.hashHex data) nExt
      ((cfg.originalsDir ++ buildDatePath d1, ⟨E.hashHex data, nExt⟩), data) = true := by
    simp [origMatch, dirUnder_append_self]
  simp only [imageAfterNormalize, resolve_new fs0 cfg d1 (E.hashHex data) nExt hfind]
  simp only [if_true]
  by_cases hgen : (((fs0.write (cfg.originalsDir ++ buildDatePath d1,
      ⟨E.hashHex data, nExt⟩) data).existsFile
      (cfg.thumbsDir ++ buildDatePath d1, ⟨E.hashHex data, "jpg"⟩)) : Bool) = true
  · rw [hgen]
    simp only [Bool.not_true, Bool.false_eq_true, if_false]
    unfold findExistingOriginal FS.write
    rw [findqCons (origMatch cfg (E.hashHex data) nExt) _ _ horig]
    rfl
  · simp only [Bool.not_eq_true] at hgen
    rw [hgen]
    simp only [Bool.not_false, if_true]
    unfold findExistingOriginal FS.write
    have hthm : origMatch cfg (E.hashHex data) nExt
        ((cfg.thumbsDir ++ buildDatePath d1, ⟨E.hashHex data, "jpg"⟩),
          E.sharpThumb data cfg.thumbImageMax) = false := by
      simp [origMatch, hthumb]
    rw [findqConsNo (origMatch cfg (E.hashHex data) nExt) _ _ hthm]
    rw [filterCons
      (fun e : FsPath × Bytes => decide (¬ e.1 = (cfg.thumbsDir ++ buildDatePath d1,
        (⟨E.hashHex data, "jpg"⟩ : FName))))
      ((cfg.originalsDir ++ buildDatePath d1, (⟨E.hashHex data, nExt⟩ : FName)), data)
      _ (by simp only [decide_eq_true_eq]; exact hone)]
    rw [findqCons (origMatch cfg (E.hashHex data) nExt) _ _ horig]
    rfl

/-- C1: deduplication.  If no original with this digest and extension
exists yet, a first image upload stores it in the bucket of day `d1`, and
a second upload on any day `d2` whose normalized bytes are identical
resolves to that same stored original: it reports `isNew = false` and
returns the same digest, storage keys, original path, and the relative
bucket of the first upload (not of day `d2`). -/
theorem dedup_second_upload (E : Tools) (cfg : Config) (d1 d2 : UtcDate)
    (fs0 : FS) (in1 in2 : ImageInput) (nExt : String) (data : Bytes)
    (info1 info2 : ImgInfo)
    (hroots : cfg.originalsDir ≠ cfg.thumbsDir)
    (hthumb : dirUnder cfg.originalsDir (cfg.thumbsDir ++ buildDatePath d1) = false)
    (hne1 : normalizeImgExt in1.iext = some nExt)
    (hne2 : normalizeImgExt in2.iext = some nExt)
    (henc1 : E.sharpEnc (fs0.lookupD in1.tmpPath) nExt = some (data, info1))
    (henc2 : E.sharpEnc
      ((processImage E cfg d1 fs0 in1).fs.lookupD in2.tmpPath) nExt
      = some (data, info2))
    (hno : ∀ e ∈ fs0, origMatch cfg (E.hashHex data) nExt e = false) :
    ∃ r1 r2,
      (processImage E cfg d1 fs0 in1).res = .ok r1 ∧
      (processImage E cfg d2 (processImage E cfg d1 fs0 in1).fs in2).res = .ok r2 ∧
      r1.paths.isNew = true ∧
      r2.paths.isNew = false ∧
      r2.sha = r1.sha ∧
      r2.paths.originalKey = r1.paths.originalKey ∧
      r2.paths.thumbKey = r1.paths.thumbKey ∧
      r2.paths.originalPath = r1.paths.originalPath ∧
      r2.paths.relativeDir = joinPosix (buildDatePath d1) := by
  have hfind1 := findExistingOriginal_none fs0 cfg (E.hashHex data) nExt hno
  have heq1 : processImage E cfg d1 fs0 in1
      = imageAfterNormalize E cfg d1 fs0 nExt data info1 := by
    simp [processImage, hne1, henc1]
  rw [heq1] at henc2 ⊢
  have heq2 : processImage E cfg d2
        (imageAfterNormalize E cfg d1 fs0 nExt data info1).fs in2
      = imageAfterNormalize E cfg d2
          (imageAfterNormalize E cfg d1 fs0 nExt data info1).fs nExt data info2 := by
    simp [processImage, hne2, henc2]
  rw [heq2]
  obtain ⟨r1, hr1, hsha1, _, _, _, _, hp1⟩ := ian_res_ok E cfg d1 fs0 nExt data info1
  obtain ⟨r2, hr2, hsha2, _, _, _, _, hp2⟩ :=
    ian_res_ok E cfg d2 (imageAfterNormalize E cfg d1 fs0 nExt data info1).fs
      nExt data info2
  have hfind2 : findExistingOriginal
      (imageAfterNormalize E cfg d1 fs0 nExt data info1).fs cfg
      (E.hashHex data) nExt
      = some (cfg.originalsDir ++ buildDatePath d1, ⟨E.hashHex data, nExt⟩) :=
    ian_find_after E cfg d1 fs0 nExt data info1 hroots hfind1 hthumb
  have hres1 := resolve_new fs0 cfg d1 (E.hashHex data) nExt hfind1
  have hres2 := resolve_found
    (imageAfterNormalize E cfg d1 fs0 nExt data info1).fs cfg d2
    (E.hashHex data) nExt (buildDatePath d1) ⟨E.hashHex data, nExt⟩ hfind2
  refine ⟨r1, r2, ?_, ?_, ?_, ?_, ?_, ?_, ?_, ?_, ?_⟩
  · exact hr1
  · exact hr2
  · rw [hp1, hres1]
  · rw [hp2, hres2]
  · rw [hsha1, hsha2]
  · rw [hp1, hp2, hres1, hres2]
  · rw [hp1, hp2, hres1, hres2]
  · rw [hp1, hp2, hres1, hres2]
  · rw [hp2, hres2]
    rfl

def fsC1 : FS := [(tmpPathW, [1])]

def inC1 : ImageInput := ⟨tmpPathW, "png", "image/png"⟩

def dateLater : UtcDate := ⟨2027, 1, 2⟩

theorem dedup_second_upload_witness :
    ∃ r1 r2,
      (processImage toolsStub cfgStub dateStub fsC1 inC1).res = .ok r1 ∧
      (processImage toolsStub cfgStub dateLater
        (processImage toolsStub cfgStub dateStub fsC1 inC1).fs inC1).res = .ok r2 ∧
      r1.paths.isNew = true ∧
      r2.paths.isNew = false ∧
      r2.sha = r1.sha ∧
      r2.paths.originalKey = r1.paths.originalKey ∧
      r2.paths.thumbKey = r1.paths.thumbKey ∧
      r2.paths.originalPath = r1.paths.originalPath ∧
      r2.paths.relativeDir = joinPosix (buildDatePath dateStub) :=
  dedup_second_upload toolsStub cfgStub dateStub dateLater fsC1 inC1 inC1
    "png" [1] ⟨some 4, some 3⟩ ⟨some 4, some 3⟩
    (by decide) (by decide) (by decide) (by decide) (by rfl) (by rfl) (by decide)

theorem normalizeImgExt_spec (e x : String) (h : normalizeImgExt e = some x) :
    x = "jpg" ∨ x = "png" ∨ x = "webp" := by
  simp only [normalizeImgExt] at h
  split at h
  · exact Or.inl (Option.some.inj h).symm
  · split at h
    · exact Or.inr (Or.inl (Option.some.inj h).symm)
    · split at h
      · exact Or.inr (Or.inr (Option.some.inj h).symm)
      · cases h

/-- The stored original of a first upload is readable afterwards with
exactly the normalized bytes. -/
theorem ian_lookup_orig (E : Tools) (cfg : Config) (d : UtcDate) (fs0 : FS)
    (nExt : String) (data : Bytes) (info : ImgInfo)
    (hroots : cfg.originalsDir ≠ cfg.thumbsDir)
    (hfind : findExistingOriginal fs0 cfg (E.hashHex data) nExt = none) :
    (imageAfterNormalize E cfg d fs0 nExt data info).fs.lookup
        (cfg.originalsDir ++ buildDatePath d, ⟨E.hashHex data, nExt⟩)
      = some data := by
  have hone := resolve_orig_ne_thumb fs0 cfg d (E.hashHex data) nExt hroots
  rw [resolve_new fs0 cfg d (E.hashHex data) nExt hfind] at hone
  simp only at hone
  simp only [imageAfterNormalize, resolve_new fs0 cfg d (E.hashHex data) nExt hfind]
  simp only [if_true]
  by_cases hgen : (((fs0.write (cfg.originalsDir ++ buildDatePath d,
      ⟨E.hashHex data, nExt⟩) data).existsFile
      (cfg.thumbsDir ++ buildDatePath d, ⟨E.hashHex data, "jpg"⟩)) : Bool) = true
  · rw [hgen]
    simp only [Bool.not_true, Bool.false_eq_true, if_false]
    exact FS.lookup_write_self fs0 _ data
  · simp only [Bool.not_eq_true] at hgen
    rw [hgen]
    simp only [Bool.not_false, if_true]
    rw [FS.lookup_write_ne _ _ _ _ hone]
    exact FS.lookup_write_self fs0 _ data

/-- After a first upload stored a new original, the `{sha}.*` glob of the
metadata endpoint finds exactly that stored file. -/
theorem ian_findsha_after (E : Tools) (cfg : Config) (d1 : UtcDate) (fs0 : FS)
    (nExt : String) (data : Bytes) (info : ImgInfo)
    (hroots : cfg.originalsDir ≠ cfg.thumbsDir)
    (hfind : findExistingOriginal fs0 cfg (E.hashHex data) nExt = none)
    (hthumb : dirUnder cfg.originalsDir (cfg.thumbsDir ++ buildDatePath d1) = false) :
    findOriginalBySha (imageAfterNormalize E cfg d1 fs0 nExt data info).fs cfg
        (E.hashHex data)
      = some ((cfg.originalsDir ++ buildDatePath d1, ⟨E.hashHex data, nExt⟩),
          lowerStr nExt) := by
  have hone := resolve_orig_ne_thumb fs0 cfg d1 (E.hashHex data) nExt hroots
  rw [resolve_new fs0 cfg d1 (E.hashHex data) nExt hfind] at hone
  simp only at hone
  have horig : shaMatch cfg (E.hashHex data)
      ((cfg.originalsDir ++ buildDatePath d1, ⟨E.hashHex data, nExt⟩), data) = true := by
    simp [shaMatch, dirUnder_append_self]
  simp only [imageAfterNormalize, resolve_new fs0 cfg d1 (E.hashHex data) nExt hfind]
  simp only [if_true]
  by_cases hgen : (((fs0.write (cfg.originalsDir ++ buildDatePath d1,
      ⟨E.hashHex data, nExt⟩) data).existsFile
      (cfg.thumbsDir ++ buildDatePath d1, ⟨E.hashHex data, "jpg"⟩)) : Bool) = true
  · rw [hgen]
    simp only [Bool.not_true, Bool.false_eq_true, if_false]
    unfold findOriginalBySha FS.write
    rw [findqCons (shaMatch cfg (E.hashHex data)) _ _ horig]
    rfl
  · simp only [Bool.not_eq_true] at hgen
    rw [hgen]
    simp only [Bool.not_false, if_true]
    unfold findOriginalBySha FS.write
    have hthm : shaMatch cfg (E.hashHex data)
        ((cfg.thumbsDir ++ buildDatePath d1, ⟨E.hashHex data, "jpg"⟩),
          E.sharpThumb data cfg.thumbImageMax) = false := by
      simp [shaMatch, hthumb]
    rw [findqConsNo (shaMatch cfg (E.hashHex data)) _ _ hthm]
    rw [filterCons
      (fun e : FsPath × Bytes => decide (¬ e.1 = (cfg.thumbsDir ++ buildDatePath d1,
        (⟨E.hashHex data, "jpg"⟩ : FName))))
      ((cfg.originalsDir ++ buildDatePath d1, (⟨E.hashHex data, nExt⟩ : FName)), data)
      _ (by simp only [decide_eq_true_eq]; exact hone)]
    rw [findqCons (shaMatch cfg (E.hashHex data)) _ _ horig]
    rfl

theorem roundtrip_aux (E : Tools) (cfg : Config) (today : UtcDate) (fs0 : FS)
    (nExt : String) (data : Bytes) (info : ImgInfo) (w h : Nat)
    (hroots : cfg.originalsDir ≠ cfg.thumbsDir)
    (hfind : findExistingOriginal fs0 cfg (E.hashHex data) nExt = none)
    (hfindsha : findOriginalBySha
        (imageAfterNormalize E cfg today fs0 nExt data info).fs cfg (E.hashHex data)
      = some ((cfg.originalsDir ++ buildDatePath today, ⟨E.hashHex data, nExt⟩), nExt))
    (hkind : extensionToKind nExt = some MediaKind.image)
    (hmime : extensionToMime nExt = some (imgExtToMime nExt))
    (hmetaE : E.imageMeta data = ⟨some w, some h⟩) :
    ∃ m, getMetadataBySha E cfg
        (imageAfterNormalize E cfg today fs0 nExt data info).fs (E.hashHex data)
        = .ok m ∧
      m.kind = .image ∧ m.mime = imgExtToMime nExt ∧
      m.width = some w ∧ m.height = some h ∧ m.sha256 = E.hashHex data := by
  have hcont : (imageAfterNormalize E cfg today fs0 nExt data info).fs.lookupD
      (cfg.originalsDir ++ buildDatePath today, ⟨E.hashHex data, nExt⟩) = data := by
    unfold FS.lookupD
    rw [ian_lookup_orig E cfg today fs0 nExt data info hroots hfind]
    rfl
  unfold getMetadataBySha
  rw [hfindsha]
  simp only [hkind, hmime, hcont, hmetaE]
  exact ⟨_, rfl, rfl, rfl, rfl, rfl, rfl⟩

/-- C8: round-trip.  A successful image upload followed by
metadata-by-digest with the returned digest succeeds and reports the same
width and height as the upload response, the image kind, the same digest,
and a MIME type matching the stored file's extension (which equals the
upload response's MIME). -/
theorem image_metadata_roundtrip (E : Tools) (cfg : Config) (today : UtcDate)
    (fs0 : FS) (inp : ImageInput) (nExt : String) (data : Bytes) (info : ImgInfo)
    (w h : Nat)
    (hroots : cfg.originalsDir ≠ cfg.thumbsDir)
    (hthumb : dirUnder cfg.originalsDir (cfg.thumbsDir ++ buildDatePath today) = false)
    (hne : normalizeImgExt inp.iext = some nExt)
    (henc : E.sharpEnc (fs0.lookupD inp.tmpPath) nExt = some (data, info))
    (hno : ∀ e ∈ fs0, shaMatch cfg (E.hashHex data) e = false)
    (hw : info.iwidth = some w) (hh : info.iheight = some h)
    (hmetaE : E.imageMeta data = ⟨some w, some h⟩) :
    ∃ r m,
      (processImage E cfg today fs0 inp).res = .ok r ∧
      getMetadataBySha E cfg (processImage E cfg today fs0 inp).fs
        (E.hashHex data) = .ok m ∧
      m.width = some r.width ∧ m.height = some r.height ∧
      m.mime = r.mime ∧ extensionToMime r.iext = some m.mime ∧
      m.kind = .image ∧ m.sha256 = r.sha := by
  have hno' : ∀ e ∈ fs0, origMatch cfg (E.hashHex data) nExt e = false := by
    intro e he
    have hs := hno e he
    have hsplit : origMatch cfg (E.hashHex data) nExt e
        = (shaMatch cfg (E.hashHex data) e && (e.1.2.fext == nExt)) := rfl
    rw [hsplit, hs]
    rfl
  have hfind := findExistingOriginal_none fs0 cfg (E.hashHex data) nExt hno'
  have heq : processImage E cfg today fs0 inp
      = imageAfterNormalize E cfg today fs0 nExt data info := by
    simp [processImage, hne, henc]
  rw [heq]
  obtain ⟨r, hr, hsha, hiext, hmime_r, hwr, hhr, hp⟩ :=
    ian_res_ok E cfg today fs0 nExt data info
  have hwval : r.width = w := by
    rw [hwr, hw]
    rfl
  have hhval : r.height = h := by
    rw [hhr, hh]
    rfl
  have hfs := ian_findsha_after E cfg today fs0 nExt data info hroots hfind hthumb
  rcases normalizeImgExt_spec inp.iext nExt hne with h4 | h4 | h4
  · subst h4
    rw [show lowerStr "jpg" = "jpg" from by decide] at hfs
    obtain ⟨m, hm, hk, hmm, hmw, hmh, hms⟩ := roundtrip_aux E cfg today fs0
      "jpg" data info w h hroots hfind hfs (by decide) (by decide) hmetaE
    refine ⟨r, m, hr, hm, ?_, ?_, ?_, ?_, hk, ?_⟩
    · rw [hmw, hwval]
    · rw [hmh, hhval]
    · rw [hmm, hmime_r]
    · rw [hiext, hmm]
      decide
    · rw [hms, hsha]
  · subst h4
    rw [show lowerStr "png" = "png" from by decide] at hfs
    obtain ⟨m, hm, hk, hmm, hmw, hmh, hms⟩ := roundtrip_aux E cfg today fs0
      "png" data info w h hroots hfind hfs (by decide) (by decide) hmetaE
    refine ⟨r, m, hr, hm, ?_, ?_, ?_, ?_, hk, ?_⟩
    · rw [hmw, hwval]
    · rw [hmh, hhval]
    · rw [hmm, hmime_r]
    · rw [hiext, hmm]
      decide
    · rw [hms, hsha]
  · subst h4
    rw [show lowerStr "webp" = "webp" from by decide] at hfs
    obtain ⟨m, hm, hk, hmm, hmw, hmh, hms⟩ := roundtrip_aux E cfg today fs0
      "webp" data info w h hroots hfind hfs (by decide) (by decide) hmetaE
    refine ⟨r, m, hr, hm, ?_, ?_, ?_, ?_, hk, ?_⟩
    · rw [hmw, hwval]
    · rw [hmh, hhval]
    · rw [hmm, hmime_r]
    · rw [hiext, hmm]
      decide
    · rw [hms, hsha]

theorem image_metadata_roundtrip_witness :
    ∃ r m,
      (processImage toolsStub cfgStub dateStub fsC1 inC1).res = .ok r ∧
      getMetadataBySha toolsStub cfgStub
        (processImage toolsStub cfgStub dateStub fsC1 inC1).fs
        (toolsStub.hashHex [1]) = .ok m ∧
      m.width = some r.width ∧ m.height = some r.height ∧
      m.mime = r.mime ∧ extensionToMime r.iext = some m.mime ∧
      m.kind = .image ∧ m.sha256 = r.sha :=
  image_metadata_roundtrip toolsStub cfgStub dateStub fsC1 inC1 "png" [1]
    ⟨some 4, some 3⟩ 4 3 (by decide) (by decide) (by decide) rfl (by decide)
    rfl rfl rfl
